import Mathlib

/-!
Verification development for the linked-claims-extraction service.

This file gives a shallow embedding, in Lean, of the URL-resolution and
URL-verification pipeline of the repository (`src/url_resolver.py` and
`src/url_verification.py`), and proves (or refutes) the specification
claims about it.

Modelling conventions:
* Python strings are Lean `String`s; all string manipulation is performed
  on the underlying `List Char` by structural recursion so that concrete
  instances evaluate inside the kernel.  The helpers `pyLower`,
  `pyReplace`, `pySplitWs`, ... model the corresponding Python `str`
  methods (ASCII behaviour, which is the only behaviour exercised here).
* Python floats are modelled as `ℚ`.  Every constant used by the code
  (0.1 .. 0.95) and every comparison proved below is exact, so float
  rounding is immaterial to the proved facts.
* Python dicts (which preserve insertion order) are modelled as
  association lists where assignment updates an existing key in place and
  appends a fresh key at the end (`alistInsert`).
* `datetime.utcnow()` is modelled by an explicit `now : Nat` argument.
* `uuid.uuid4()` is modelled by a fresh-`Nat` counter in the manager state.
* Network I/O (the requests library / search backends) is modelled by
  explicit oracle arguments describing the outcome of the call.
-/

namespace LCE

/-! ## Python string primitives (modelled on `List Char`) -/

/-- Is `pat` a prefix of `l`?  (Helper for Python's `in` / `startswith`.) -/
def charsPrefix : List Char → List Char → Bool
  | [], _ => true
  | _ :: _, [] => false
  | a :: as, b :: bs => a == b && charsPrefix as bs

/-- Does `pat` occur as a contiguous substring of `l`? -/
def charsInfix (pat : List Char) : List Char → Bool
  | [] => charsPrefix pat []
  | c :: rest => charsPrefix pat (c :: rest) || charsInfix pat rest

/-- Python's `pat in s` substring test. -/
def strContains (s pat : String) : Bool := charsInfix pat.data s.data

/-- Python's `s.startswith(pre)`. -/
def pyStartsWith (s pre : String) : Bool := charsPrefix pre.data s.data

/-- Python's `s.lower()` (ASCII). -/
def pyLower (s : String) : String := String.mk (s.data.map Char.toLower)

/-- Fuel-indexed worker for `pyReplace`; the fuel is the length of the
input, which bounds the number of steps. -/
def replGo (pat rep : List Char) : Nat → List Char → List Char
  | _, [] => []
  | 0, s => s
  | fuel + 1, c :: rest =>
    if charsPrefix pat (c :: rest) then
      rep ++ replGo pat rep fuel (List.drop (pat.length - 1) rest)
    else
      c :: replGo pat rep fuel rest

/-- Python's `s.replace(pat, rep)` (all non-overlapping occurrences,
left to right).  The empty-pattern case only ever arises in this codebase
with an empty replacement, for which Python returns `s` unchanged. -/
def pyReplace (s pat rep : String) : String :=
  if pat.data.isEmpty then s else String.mk (replGo pat.data rep.data s.data.length s.data)

/-- Worker for `pySplitWs`: split on runs of whitespace, discarding
empty tokens (Python's `s.split()`). -/
def splitWsGo (acc : List Char) : List Char → List (List Char)
  | [] => if acc.isEmpty then [] else [acc.reverse]
  | c :: rest =>
    if c.isWhitespace then
      if acc.isEmpty then splitWsGo [] rest else acc.reverse :: splitWsGo [] rest
    else
      splitWsGo (c :: acc) rest

/-- Python's `s.split()` (split on whitespace runs, no empty tokens). -/
def pySplitWs (s : String) : List String := (splitWsGo [] s.data).map String.mk

/-- Worker for `splitOnChar`: Python's `s.split(sep)` for a single-char
separator (keeps empty tokens). -/
def splitOnCharGo (sep : Char) (acc : List Char) : List Char → List (List Char)
  | [] => [acc.reverse]
  | c :: rest =>
    if c == sep then acc.reverse :: splitOnCharGo sep [] rest
    else splitOnCharGo sep (c :: acc) rest

/-- Python's `s.split(sep)` for a one-character separator. -/
def splitOnChar (sep : Char) (s : String) : List String :=
  (splitOnCharGo sep [] s.data).map String.mk

/-- Strip characters satisfying `p` from both ends of a char list. -/
def stripCharsBy (p : Char → Bool) (l : List Char) : List Char :=
  ((l.dropWhile p).reverse.dropWhile p).reverse

/-- Python's `s.strip()` (whitespace from both ends). -/
def pyStrip (s : String) : String := String.mk (stripCharsBy Char.isWhitespace s.data)

/-- Python's `s.strip(c)` for a single character. -/
def pyStripChar (c : Char) (s : String) : String :=
  String.mk (stripCharsBy (fun x => x == c) s.data)

/-- Python's `s.capitalize()`: first character upper-cased, the rest
lower-cased (ASCII). -/
def pyCapitalize (s : String) : String :=
  match s.data with
  | [] => ""
  | c :: rest => String.mk (c.toUpper :: rest.map Char.toLower)

/-- Worker for `pyTitle`: uppercase a letter following a non-letter,
lowercase a letter following a letter. -/
def titleGo (prevAlpha : Bool) : List Char → List Char
  | [] => []
  | c :: rest =>
    (if c.isAlpha then (if prevAlpha then c.toLower else c.toUpper) else c)
      :: titleGo c.isAlpha rest

/-- Python's `s.title()` (ASCII). -/
def pyTitle (s : String) : String := String.mk (titleGo false s.data)

/-- Python's `' '.join(l)`. -/
def joinSpace : List String → String
  | [] => ""
  | [s] => s
  | s :: rest@(_ :: _) => s ++ " " ++ joinSpace rest

/-! ## Association lists (Python dict: insertion-ordered, unique keys) -/

/-- Dict lookup. -/
def alistLookup {β : Type} (l : List (String × β)) (k : String) : Option β :=
  match l with
  | [] => none
  | (k', v) :: rest => if k' = k then some v else alistLookup rest k

/-- Dict assignment `d[k] = v`: update an existing key in place, append a
fresh key at the end (Python insertion-order semantics). -/
def alistInsert {β : Type} (l : List (String × β)) (k : String) (v : β) : List (String × β) :=
  match l with
  | [] => [(k, v)]
  | (k', v') :: rest => if k' = k then (k, v) :: rest else (k', v') :: alistInsert rest k v

/-- Python `list.remove` (first occurrence), as used under an `in` guard:
a no-op when the element is absent. -/
def removeFirst : List Nat → Nat → List Nat
  | [], _ => []
  | x :: xs, y => if x == y then xs else x :: removeFirst xs y

/-! ## `url_resolver.py`: pure helpers -/

/-- `KNOWN_ORGS`: the static known-organization table. -/
def KNOWN_ORGS : List (String × String) :=
  [ ("unicef", "https://www.unicef.org"),
    ("who", "https://www.who.int"),
    ("world_bank", "https://www.worldbank.org"),
    ("gates_foundation", "https://www.gatesfoundation.org") ]

/-- `normalize_org_name`: lower-case, then spaces and hyphens to underscores. -/
def normalize_org_name (org_name : String) : String :=
  pyReplace (pyReplace (pyLower org_name) " " "_") "-" "_"

/-- `extract_org_name_from_urn`. -/
def extract_org_name_from_urn (urn : String) : String :=
  if pyStartsWith urn "urn:local:org:" then
    pyReplace urn "urn:local:org:" ""
  else if pyStartsWith urn "urn:local:program:" then
    match splitOnChar ':' (pyReplace urn "urn:local:program:" "") with
    | [] => ""
    | p :: _ => p
  else urn

/-! ### A model of Python's `urllib.parse.urlparse`, restricted to the
scheme and netloc components (the only ones the code uses). -/

/-- Split a char list at the first `':'`, returning the parts before and
after it. -/
def splitAtColon : List Char → Option (List Char × List Char)
  | [] => none
  | c :: rest =>
    if c == ':' then some ([], rest)
    else match splitAtColon rest with
      | some (pre, post) => some (c :: pre, post)
      | none => none

/-- Is `l` a valid URL scheme (letter followed by letters, digits,
`+`, `-`, `.`)? -/
def validSchemeChars : List Char → Bool
  | [] => false
  | c :: rest =>
    c.isAlpha && rest.all (fun x => x.isAlphanum || x == '+' || x == '-' || x == '.')

/-- Modelled from Python `urllib.parse.urlparse`: the `(scheme, rest)`
split.  The scheme is recognised (and lower-cased) only when the text
before the first colon is a valid scheme. -/
def schemeSplit (url : String) : String × List Char :=
  match splitAtColon url.data with
  | some (pre, post) =>
    if validSchemeChars pre then (String.mk (pre.map Char.toLower), post)
    else ("", url.data)
  | none => ("", url.data)

/-- Modelled from Python `urllib.parse.urlparse(url).scheme`. -/
def pyScheme (url : String) : String := (schemeSplit url).1

/-- Modelled from Python `urllib.parse.urlparse(url).netloc`: the text
after a leading `//` of the scheme-stripped URL, up to the next `/`, `?`
or `#`; empty when there is no `//`. -/
def pyNetloc (url : String) : String :=
  let rest := (schemeSplit url).2
  if charsPrefix ['/', '/'] rest then
    String.mk ((rest.drop 2).takeWhile (fun c => !(c == '/' || c == '?' || c == '#')))
  else ""

/-- `validate_url`: non-empty netloc and an http(s) scheme. -/
def validate_url (url : String) : Bool :=
  !(pyNetloc url).isEmpty && (pyScheme url = "http" || pyScheme url = "https")

/-! ### `expand_organization_name` -/

/-- The `expansions` table of `expand_organization_name`, in source order. -/
def orgExpansions : List (String × List String) :=
  [ ("global fund",
      [ "Global Fund to Fight AIDS Tuberculosis and Malaria",
        "Global Fund to Fight AIDS",
        "The Global Fund" ]),
    ("gavi",
      [ "GAVI the Vaccine Alliance",
        "GAVI Alliance",
        "Gavi Vaccine Alliance" ]),
    ("amurt",
      [ "AMURT Ananda Marga Universal Relief Team",
        "Ananda Marga Universal Relief Team" ]),
    ("leap",
      [ "LEAP Livelihood Enhancement Action Plan",
        "Livelihood Enhancement Action Plan" ]),
    ("moremilk",
      [ "MoreMilk dairy program",
        "MoreMilk Kenya",
        "MoreMilk CGIAR" ]),
    ("who",
      [ "World Health Organization",
        "WHO World Health Organization" ]),
    ("unicef",
      [ "UNICEF United Nations Children Fund",
        "United Nations Children Fund" ]) ]

/-- The normalized base name: underscores and hyphens to spaces, stripped. -/
def baseOrgName (org_name : String) : String :=
  pyStrip (pyReplace (pyReplace org_name "_" " ") "-" " ")

/-- `expand_organization_name`.  The document-context branch of the source
runs `re.findall` over the lowered context; the raw match strings that the
two regexes produce are abstracted here as the oracle argument
`ctxMatches` (an empty context yields no matches), and the downstream
per-match processing (strip, length guards, capitalisation, dedup against
the list so far) is embedded exactly. -/
def expand_organization_name (org_name : String) (ctxMatches : List String) : List String :=
  let base_name := baseOrgName org_name
  let org_lower := pyLower base_name
  let expanded1 :=
    orgExpansions.foldl
      (fun acc kv =>
        if strContains org_lower kv.1 || strContains kv.1 org_lower then acc ++ kv.2 else acc)
      [base_name]
  ctxMatches.foldl
    (fun acc m =>
      let expanded := pyStrip (pyStripChar ',' (pyStrip m))
      if base_name.length < expanded.length && expanded.length < 100 then
        let expanded_clean := joinSpace ((pySplitWs expanded).map pyCapitalize)
        if acc.contains expanded_clean then acc else acc ++ [expanded_clean]
      else acc)
    expanded1

/-! ### `calculate_url_confidence` -/

/-- The ten boolean tests of `calculate_url_confidence`, in source order:
domain-part match, full-org-in-domain match, title-part match, path-part
match, official-looking URL, org-keyword in title, vaccine special case,
alliance special case, social-platform penalty, generic-platform penalty.
Splitting the (pure string) tests from the arithmetic keeps each half of
the function independently evaluable. -/
structure ConfidenceFlags where
  domainPart : Bool
  domainFull : Bool
  titlePart : Bool
  pathPart : Bool
  officialUrl : Bool
  orgTitle : Bool
  vaccineBoost : Bool
  allianceBoost : Bool
  socialPenalty : Bool
  genericPenalty : Bool
deriving DecidableEq

/-- The string tests of `calculate_url_confidence`. -/
def confidenceFlags (org_name title url : String) : ConfidenceFlags :=
  let org_lower := pyReplace (pyReplace (pyLower org_name) "_" " ") "-" " "
  let title_lower := pyLower title
  let url_lower := pyLower url
  let domain := pyLower (pyNetloc url)
  let org_parts :=
    (pySplitWs org_lower).filterMap
      (fun part => let p := pyStrip part; if 2 < p.length then some p else none)
  let domain_normalized := pyReplace (pyReplace domain "-" "") "." ""
  let org_normalized := pyReplace (pyReplace org_lower " " "") "_" ""
  let url_path := pyReplace (pyReplace (pyReplace url_lower domain "") "http://" "") "https://" ""
  let path_normalized := pyReplace (pyReplace url_path "-" "") "_" ""
  { domainPart :=
      org_parts.any (fun part => strContains domain_normalized (pyReplace part " " "")),
    domainFull := strContains domain_normalized org_normalized,
    titlePart := org_parts.any (fun part => strContains title_lower part),
    pathPart :=
      org_parts.any (fun part => strContains path_normalized (pyReplace part " " "")),
    officialUrl := [".org", ".gov", "official", "www."].any (fun ind => strContains url_lower ind),
    orgTitle :=
      ["foundation", "organization", "ngo", "official", "alliance"].any
        (fun ind => strContains title_lower ind),
    vaccineBoost := strContains org_lower "vaccine" && strContains domain "vaccine",
    allianceBoost :=
      strContains org_lower "alliance" &&
        (strContains domain "alliance" || strContains domain "vaccine"),
    socialPenalty :=
      ["facebook.com", "twitter.com", "linkedin.com", "youtube.com", "wikipedia.org"].any
        (fun p => strContains domain p),
    genericPenalty :=
      ["blogspot", "wordpress", "medium.com", "github.com"].any
        (fun g => strContains domain g) }

/-- The arithmetic of `calculate_url_confidence`: additive boosts in
source order, then the multiplicative penalties, then the clamp to 1. -/
def confidenceScore (f : ConfidenceFlags) : ℚ :=
  let base : ℚ :=
    (if f.domainPart then 1/2 else 0) + (if f.domainFull then 2/5 else 0) +
    (if f.titlePart then 3/10 else 0) + (if f.pathPart then 1/5 else 0) +
    (if f.officialUrl then 1/5 else 0) + (if f.orgTitle then 1/10 else 0) +
    (if f.vaccineBoost then 3/10 else 0) + (if f.allianceBoost then 3/10 else 0)
  let base := if f.socialPenalty then base * (1/2) else base
  let base := if f.genericPenalty then base * (7/10) else base
  min base 1

/-- `calculate_url_confidence`: additive confidence score, clamped to 1. -/
def calculate_url_confidence (org_name title url : String) : ℚ :=
  confidenceScore (confidenceFlags org_name title url)

/-! ## `url_verification.py`: the verification manager -/

/-- `VerificationStatus`. -/
inductive VerificationStatus where
  | unverified
  | approved
  | rejected
  | pending
deriving DecidableEq

/-- `URLCandidate`.  Candidate ids (`uuid4` strings in the source) are
modelled as the `Nat`s handed out by the manager's fresh-id counter. -/
structure URLCandidate where
  id : Nat
  organization : String
  url : String
  title : String
  confidence : ℚ
  status : VerificationStatus
  found_at : Nat
  verified_at : Option Nat
  verified_by : Option String
  rejection_reason : Option String
deriving DecidableEq

/-- The state of a `URLVerificationManager`: the `candidates` dict
(insertion-ordered, keyed by the unique `id` field), the
`verified_urls` dict, the `pending_verifications` dict, and the fresh-id
counter standing in for `uuid4`. -/
structure VerificationState where
  candidates : List URLCandidate
  verified_urls : List (String × String)
  pending_verifications : List (String × List Nat)
  nextId : Nat
deriving DecidableEq

/-- `URLVerificationManager.__init__`: everything empty. -/
def initVerificationState : VerificationState :=
  { candidates := [], verified_urls := [], pending_verifications := [], nextId := 0 }

/-- Dict lookup `self.candidates[candidate_id]` (as an `Option`). -/
def findCandidate (s : VerificationState) (cid : Nat) : Option URLCandidate :=
  s.candidates.find? (fun c => c.id == cid)

/-- The status of a candidate id in a state, when the id exists. -/
def statusOf (s : VerificationState) (cid : Nat) : Option VerificationStatus :=
  (findCandidate s cid).map (fun c => c.status)

/-- The fresh UNVERIFIED candidate `add_url_candidates` builds for one
`(title, url, confidence)` tuple. -/
def mkCandidate (s : VerificationState) (org_name : String) (tuc : String × String × ℚ)
    (now : Nat) : URLCandidate :=
  { id := s.nextId, organization := org_name, url := tuc.2.1, title := tuc.1,
    confidence := tuc.2.2, status := .unverified, found_at := now,
    verified_at := none, verified_by := none, rejection_reason := none }

/-- One iteration of the `add_url_candidates` loop: append the fresh
candidate to the candidates dict and its id to the organization's pending
list. -/
def addOne (s : VerificationState) (org_name : String) (tuc : String × String × ℚ)
    (now : Nat) : VerificationState :=
  { s with
    candidates := s.candidates ++ [mkCandidate s org_name tuc now],
    pending_verifications :=
      alistInsert s.pending_verifications org_name
        (((alistLookup s.pending_verifications org_name).getD []) ++ [(mkCandidate s org_name tuc now).id]),
    nextId := s.nextId + 1 }

/-- `add_url_candidates`: one fresh UNVERIFIED candidate per
`(title, url, confidence)` tuple, appended to the candidates dict and to
the organization's pending list, processed in list order. -/
def add_url_candidates (s : VerificationState) (org_name : String)
    (cands : List (String × String × ℚ)) (now : Nat) :
    List URLCandidate × VerificationState :=
  match cands with
  | [] => ([], s)
  | tuc :: rest =>
    let r := add_url_candidates (addOne s org_name tuc now) org_name rest now
    (mkCandidate s org_name tuc now :: r.1, r.2)

/-- `get_verified_url`. -/
def get_verified_url (s : VerificationState) (org_name : String) : Option String :=
  alistLookup s.verified_urls org_name

/-- The system-generated rejection reason used by `approve_url`. -/
def siblingRejectionReason : String := "Another URL was approved for this organization"

/-- The per-candidate update of `approve_url` for the approved id:
status APPROVED, verifier and timestamp recorded. -/
def approveMark (cid : Nat) (user : String) (now : Nat) (c : URLCandidate) : URLCandidate :=
  if c.id == cid then
    { c with status := .approved, verified_at := some now, verified_by := some user }
  else c

/-- The per-candidate update of `approve_url`'s sibling loop: every
candidate whose id remains on the pending list is set REJECTED with the
system-generated reason. -/
def rejectSiblings (rest : List Nat) (c : URLCandidate) : URLCandidate :=
  if rest.contains c.id then
    { c with status := .rejected, rejection_reason := some siblingRejectionReason }
  else c

/-- The per-candidate update of `reject_url`: status REJECTED with
reason, verifier and timestamp. -/
def rejectMark (cid : Nat) (reason : String) (user : Option String) (now : Nat)
    (c : URLCandidate) : URLCandidate :=
  if c.id == cid then
    { c with status := .rejected, verified_at := some now, verified_by := user,
             rejection_reason := some reason }
  else c

/-- `approve_url`: unknown id fails; otherwise the candidate is set
APPROVED (with verifier and timestamp), the organization's verified URL
is recorded, the id is removed from the organization's pending list, and
every remaining id on that pending list is set REJECTED with the
system-generated reason and the list is emptied. -/
def approve_url (s : VerificationState) (cid : Nat) (user : String) (now : Nat) :
    Bool × VerificationState :=
  match findCandidate s cid with
  | none => (false, s)
  | some cand =>
    let cands1 := s.candidates.map (approveMark cid user now)
    let ver1 := alistInsert s.verified_urls cand.organization cand.url
    match alistLookup s.pending_verifications cand.organization with
    | none =>
      (true, { s with candidates := cands1, verified_urls := ver1 })
    | some plist =>
      let rest := removeFirst plist cid
      let cands2 := cands1.map (rejectSiblings rest)
      (true,
        { s with
          candidates := cands2,
          verified_urls := ver1,
          pending_verifications :=
            alistInsert s.pending_verifications cand.organization [] })

/-- `reject_url`: unknown id fails; otherwise the candidate is set
REJECTED with the reason, verifier and timestamp, and its id is removed
from the organization's pending list if present. -/
def reject_url (s : VerificationState) (cid : Nat) (reason : String)
    (user : Option String) (now : Nat) : Bool × VerificationState :=
  match findCandidate s cid with
  | none => (false, s)
  | some cand =>
    let cands1 := s.candidates.map (rejectMark cid reason user now)
    let pending1 :=
      match alistLookup s.pending_verifications cand.organization with
      | none => s.pending_verifications
      | some plist =>
        if plist.contains cid then
          alistInsert s.pending_verifications cand.organization (removeFirst plist cid)
        else s.pending_verifications
    (true, { s with candidates := cands1, pending_verifications := pending1 })

/-! ### `get_pending_verifications` -/

/-- The serialized form of a candidate produced by
`get_pending_verifications` (keys `candidate_id`, `url`, `title`,
`confidence`, `found_at`). -/
structure PendingCandidate where
  candidate_id : Nat
  url : String
  title : String
  confidence : ℚ
  found_at : Nat
deriving DecidableEq

/-- One entry of the `get_pending_verifications` result. -/
structure PendingOrg where
  organization : String
  display_name : String
  candidates : List PendingCandidate
  candidate_count : Nat
deriving DecidableEq

/-- Candidate serialization used by `get_pending_verifications`. -/
def serializeCandidate (c : URLCandidate) : PendingCandidate :=
  { candidate_id := c.id, url := c.url, title := c.title,
    confidence := c.confidence, found_at := c.found_at }

/-- The inner loop of `get_pending_verifications`: the still-UNVERIFIED
candidates behind a pending-id list, serialized. -/
def unverifiedSerialized (s : VerificationState) (ids : List Nat) : List PendingCandidate :=
  ids.filterMap
    (fun cid =>
      match findCandidate s cid with
      | some c => if c.status = .unverified then some (serializeCandidate c) else none
      | none => none)

/-- The collection loop of `get_pending_verifications`: walk the
`pending_verifications` dict in insertion order, keep organizations with
a non-empty serialized candidate list, and stop once `limit` entries have
been collected. -/
def collectPendingOrgs (s : VerificationState) (limit : Nat) :
    List (String × List Nat) → Nat → List PendingOrg
  | [], _ => []
  | (org, ids) :: rest, count =>
    if limit ≤ count then []
    else if ids.isEmpty then collectPendingOrgs s limit rest count
    else
      let cands := unverifiedSerialized s ids
      if cands.isEmpty then collectPendingOrgs s limit rest count
      else
        { organization := org,
          display_name := pyTitle (pyReplace org "_" " "),
          candidates := cands,
          candidate_count := cands.length } :: collectPendingOrgs s limit rest (count + 1)

/-- Python's `max(c['confidence'] for c in ...)` over a candidate list
(the source only evaluates it on non-empty lists). -/
def maxConfidence : List PendingCandidate → ℚ
  | [] => 0
  | c :: rest => rest.foldl (fun m x => max m x.confidence) c.confidence

/-- Descending-by-max-confidence order on pending entries. -/
def pendingGE (a b : PendingOrg) : Prop :=
  maxConfidence b.candidates ≤ maxConfidence a.candidates

instance : DecidableRel pendingGE := fun a b =>
  inferInstanceAs (Decidable (maxConfidence b.candidates ≤ maxConfidence a.candidates))

instance : IsTotal PendingOrg pendingGE :=
  ⟨fun a b => le_total (maxConfidence b.candidates) (maxConfidence a.candidates)⟩

instance : IsTrans PendingOrg pendingGE :=
  ⟨fun _ _ _ hab hbc => le_trans hbc hab⟩

/-- `get_pending_verifications`: collect (truncating at `limit`), then
sort descending by best candidate confidence.  Python's `list.sort` is
stable; it is modelled by the (stable) insertion sort. -/
def get_pending_verifications (s : VerificationState) (limit : Nat) : List PendingOrg :=
  List.insertionSort pendingGE (collectPendingOrgs s limit s.pending_verifications 0)

/-! ### Operation sequences on a manager -/

/-- One mutating call on a `URLVerificationManager`. -/
inductive VOp where
  | add (org : String) (cands : List (String × String × ℚ)) (now : Nat)
  | approve (cid : Nat) (user : String) (now : Nat)
  | reject (cid : Nat) (reason : String) (user : Option String) (now : Nat)

/-- Apply one operation to a manager state. -/
def stepOp (s : VerificationState) : VOp → VerificationState
  | .add org cands now => (add_url_candidates s org cands now).2
  | .approve cid user now => (approve_url s cid user now).2
  | .reject cid reason user now => (reject_url s cid reason user now).2

/-- Run a call sequence from a fresh manager. -/
def runOps (ops : List VOp) : VerificationState :=
  ops.foldl stepOp initVerificationState

/-- The number of APPROVED candidates a state holds for an organization. -/
def countApproved (s : VerificationState) (org : String) : Nat :=
  (s.candidates.filter
    (fun c => c.organization == org && (c.status == VerificationStatus.approved))).length

/-! ## `url_resolver.py`: `find_real_org_url_with_candidates` and
`resolve_claim_urls`

The durable database (`VerifiedOrganization.get_verified_url`) is an
external collaborator, modelled as an oracle `db : String → Option String`
(a raised exception inside the `try` around the database check behaves
like `none`).  The live web search (`search_organization_urls`, whose
network behaviour is unbounded and which catches all its own errors) is
modelled as an oracle `search : String → String → List (title, url,
confidence)` giving the scored, deduplicated, confidence-sorted candidate
list for an organization name and context.  `URL_CACHE` entries are
either legacy bare strings or `(best, candidates)` pairs. -/

/-- A `(title, url, confidence)` search candidate. -/
abbrev SearchCandidate := String × String × ℚ

/-- One `URL_CACHE` value: a legacy bare URL or a
`(best_url_or_None, candidates)` pair. -/
inductive CacheEntry where
  | legacy (url : String)
  | entry (best : Option String) (cands : List SearchCandidate)
deriving DecidableEq

/-- The module-level mutable state of `url_resolver.py` plus the global
verification manager it drives. -/
structure ResolverState where
  mgr : VerificationState
  url_cache : List (String × CacheEntry)
deriving DecidableEq

/-- The result of one `find_real_org_url_with_candidates` call: the
returned pair, the updated module state, and whether a live web search
was issued. -/
structure FindResult where
  best : Option String
  candidates : List SearchCandidate
  state : ResolverState
  searched : Bool
deriving DecidableEq

/-- The known-pattern keyword test of the auto-acceptance policy. -/
def is_known_pattern (org_name : String) : Bool :=
  ["gavi", "who", "unicef", "world_bank"].any (fun k => strContains (pyLower org_name) k)

/-- `find_real_org_url_with_candidates`.  The Python float threshold
`0.95` is the exact rational `19/20` here; no comparison proved below is
sensitive to the difference between the two. -/
def find_real_org_url_with_candidates (db : String → Option String)
    (search : String → String → List SearchCandidate) (st : ResolverState)
    (org_name : String) (save_for_verification : Bool) (context : String)
    (now : Nat) : FindResult :=
  let cache_key := normalize_org_name org_name
  match db org_name with
  | some verified_url =>
    ⟨some verified_url, [("Database verified", verified_url, 1)], st, false⟩
  | none =>
    match get_verified_url st.mgr cache_key with
    | some verified_url =>
      ⟨some verified_url, [("User verified", verified_url, 1)], st, false⟩
    | none =>
      match alistLookup st.url_cache cache_key with
      | some (.legacy u) => ⟨some u, [("Cached result", u, 1)], st, false⟩
      | some (.entry best cands) => ⟨best, cands, st, false⟩
      | none =>
        match alistLookup KNOWN_ORGS cache_key with
        | some url =>
          let cands : List SearchCandidate := [("Known organization", url, 1)]
          ⟨some url, cands,
            { st with url_cache := alistInsert st.url_cache cache_key (.entry (some url) cands) },
            false⟩
        | none =>
          match search org_name context with
          | [] =>
            ⟨none, [],
              { st with url_cache := alistInsert st.url_cache cache_key (.entry none []) },
              true⟩
          | (best_title, best_url, best_confidence) :: crest =>
            let candidates : List SearchCandidate := (best_title, best_url, best_confidence) :: crest
            let mgr1 :=
              if save_for_verification then
                (add_url_candidates st.mgr cache_key candidates now).2
              else st.mgr
            let best : Option String :=
              if 19/20 ≤ best_confidence ∧ is_known_pattern org_name = true then some best_url
              else none
            ⟨best, candidates,
              { mgr := mgr1,
                url_cache := alistInsert st.url_cache cache_key (.entry best candidates) },
              true⟩

/-! ### `resolve_claim_urls` -/

/-- A candidate dict as placed on the claim's
`subject_url_candidates` / `object_url_candidates` lists; the three
dict shapes the source produces share these keys, absent ones being
`none`. -/
structure ApiCandidate where
  url : String
  title : String
  confidence : ℚ
  status : Option String
  candidate_id : Option String
  found_at : Option Nat
deriving DecidableEq

/-- A claim dict, restricted to the keys `resolve_claim_urls` reads or
writes; `none` marks an absent key. -/
structure ClaimData where
  subject : String
  object : String
  subject_url_confidence : Option ℚ
  subject_url_verified : Option Bool
  urls_need_verification : Option Bool
  subject_suggested : Option Bool
  subject_url_candidates : Option (List ApiCandidate)
  subject_organization_display : Option String
  object_url_confidence : Option ℚ
  object_url_verified : Option Bool
  object_url_candidates : Option (List ApiCandidate)
  object_organization_display : Option String
  object_url_source : Option String
deriving DecidableEq

/-- A verification-manager candidate as it appears on the API list. -/
def apiOfPending (p : PendingCandidate) : ApiCandidate :=
  { url := p.url, title := p.title, confidence := p.confidence, status := none,
    candidate_id := some (toString p.candidate_id), found_at := some p.found_at }

/-- A current-search candidate as it appears on the API list
(`candidate_id` is `search_<hash(url)>`; `hash` is Python's string hash,
an oracle here). -/
def searchApiCandidate (hash : String → Int) (c : SearchCandidate) : ApiCandidate :=
  { url := c.2.1, title := c.1, confidence := c.2.2, status := some "unverified",
    candidate_id := some ("search_" ++ toString (hash c.2.1)), found_at := none }

/-- The merge loop of the subject branch: append each current-search
candidate whose URL is not already on the list. -/
def mergeSearchCandidates (hash : String → Int) (base : List ApiCandidate)
    (cands : List SearchCandidate) : List ApiCandidate :=
  cands.foldl
    (fun acc c =>
      if (acc.map (fun a => a.url)).contains c.2.1 then acc
      else acc ++ [searchApiCandidate hash c])
    base

/-- The needs-verification branch for the subject field. -/
def subjectNeedsVerification (hash : String → Int) (claim : ClaimData) (r : FindResult)
    (org_name : String) : ClaimData :=
  let vc := get_pending_verifications r.state.mgr 10
  let org_candidates := vc.find? (fun o => o.organization == normalize_org_name org_name)
  let base :=
    match org_candidates with
    | some oc => oc.candidates.map apiOfPending
    | none => []
  let display :=
    match org_candidates with
    | some oc => some oc.display_name
    | none => claim.subject_organization_display
  { claim with
    urls_need_verification := some true,
    subject_url_verified := some false,
    subject_suggested := some true,
    subject_url_candidates := some (mergeSearchCandidates hash base (r.candidates.take 5)),
    subject_organization_display := display }

/-- The subject-field half of `resolve_claim_urls`. -/
def resolveSubject (db : String → Option String)
    (search : String → String → List SearchCandidate) (hash : String → Int)
    (st : ResolverState) (claim : ClaimData) (context : String) (now : Nat) :
    ClaimData × ResolverState :=
  if pyStartsWith claim.subject "urn:local:org:" || pyStartsWith claim.subject "urn:local:program:" then
    let org_name := extract_org_name_from_urn claim.subject
    let r := find_real_org_url_with_candidates db search st org_name true context now
    match r.best with
    | some real_url =>
      if validate_url real_url then
        ({ claim with
            subject := real_url,
            subject_url_confidence :=
              some (match r.candidates with | [] => 0 | (_, _, c) :: _ => c),
            subject_url_verified := some true }, r.state)
      else (subjectNeedsVerification hash claim r org_name, r.state)
    | none => (subjectNeedsVerification hash claim r org_name, r.state)
  else (claim, st)

/-- The needs-verification branch for the object field. -/
def objectNeedsVerification (claim : ClaimData) (r : FindResult) (org_name : String) :
    ClaimData :=
  let vc := get_pending_verifications r.state.mgr 10
  let org_candidates := vc.find? (fun o => o.organization == normalize_org_name org_name)
  match org_candidates with
  | some oc =>
    { claim with
      urls_need_verification := some true,
      object_url_verified := some false,
      object_url_candidates := some (oc.candidates.map apiOfPending),
      object_organization_display := some oc.display_name }
  | none =>
    { claim with
      urls_need_verification := some true,
      object_url_verified := some false,
      object_url_candidates :=
        some ((r.candidates.take 3).map
          (fun c =>
            { url := c.2.1, title := c.1, confidence := c.2.2,
              status := none, candidate_id := none, found_at := none })) }

/-- The object-field half of `resolve_claim_urls`. -/
def resolveObject (db : String → Option String)
    (search : String → String → List SearchCandidate) (st : ResolverState)
    (claim : ClaimData) (context : String) (document_url : String) (now : Nat) :
    ClaimData × ResolverState :=
  if pyStartsWith claim.object "urn:local:org:" || pyStartsWith claim.object "urn:local:program:" then
    let org_name := extract_org_name_from_urn claim.object
    let r := find_real_org_url_with_candidates db search st org_name true context now
    match r.best with
    | some real_url =>
      if validate_url real_url then
        ({ claim with
            object := real_url,
            object_url_confidence :=
              some (match r.candidates with | [] => 0 | (_, _, c) :: _ => c),
            object_url_verified := some true }, r.state)
      else (objectNeedsVerification claim r org_name, r.state)
    | none => (objectNeedsVerification claim r org_name, r.state)
  else if pyStartsWith claim.object "urn:local:person:" || pyStartsWith claim.object "urn:local:population:" then
    if !document_url.isEmpty && validate_url document_url then
      ({ claim with object := document_url, object_url_source := some "document" }, st)
    else (claim, st)
  else (claim, st)

/-- `resolve_claim_urls`: subject branch, then object branch.  The
enclosing `try`/`except` of the source cannot fire in the model (all
embedded operations are total). -/
def resolve_claim_urls (db : String → Option String)
    (search : String → String → List SearchCandidate) (hash : String → Int)
    (st : ResolverState) (claim : ClaimData) (context : String)
    (document_url : String) (now : Nat) : ClaimData × ResolverState :=
  let s1 := resolveSubject db search hash st claim context now
  resolveObject db search s1.2 s1.1 context document_url now

/-! ## `search_duckduckgo` and `search_via_scraping`

The HTTP layer (the `requests` library) is modelled by an oracle value
describing the outcome of the one outbound call each function makes:
either the call raised (connection error / timeout), or it produced a
response with a status code and a body.  For the JSON API the body is an
`Option Json` (`none`: `.json()` raised on a malformed body); for the
scraper it is the page text.  Everything downstream of the oracle is
embedded from the source; a thrown Python exception is an
`Except.error`, and each public function ends in the source's broad
`except` clause, which degrades any error to `[]`. -/

/-- A JSON value. -/
inductive Json where
  | null
  | bool (b : Bool)
  | num (q : ℚ)
  | str (s : String)
  | arr (items : List Json)
  | obj (fields : List (String × Json))

/-- Python truthiness of a JSON value. -/
def jTruthy : Json → Bool
  | .null => false
  | .bool b => b
  | .num q => decide (¬ q = 0)
  | .str s => !s.isEmpty
  | .arr l => !l.isEmpty
  | .obj l => !l.isEmpty

/-- `d.get(key, default)` on a JSON object's fields. -/
def jGetD (fields : List (String × Json)) (key : String) (dflt : Json) : Json :=
  (alistLookup fields key).getD dflt

/-- Python `value == 'lit'` for a JSON value against a string literal. -/
def jEqStr : Json → String → Bool
  | .str s, t => s == t
  | _, _ => false

mutual

/-- Does Python's `str(value)` contain `"http"`?  (`str()` of `None`,
booleans and numbers never contains it; for strings it is the substring
test; for lists and dicts the rendering contains exactly the renderings
of the elements, keys included, so the test distributes over them.) -/
def jsonTextHasHttp : Json → Bool
  | .null => false
  | .bool _ => false
  | .num _ => false
  | .str s => strContains s "http"
  | .arr l => jsonListHasHttp l
  | .obj l => jsonObjHasHttp l

/-- `jsonTextHasHttp` over a JSON array's items. -/
def jsonListHasHttp : List Json → Bool
  | [] => false
  | j :: rest => jsonTextHasHttp j || jsonListHasHttp rest

/-- `jsonTextHasHttp` over a JSON object's fields. -/
def jsonObjHasHttp : List (String × Json) → Bool
  | [] => false
  | (k, j) :: rest => strContains k "http" || jsonTextHasHttp j || jsonObjHasHttp rest

end

/-- A character the regex class `[^\s<>"]` accepts. -/
def urlRunChar (c : Char) : Bool :=
  !(c.isWhitespace || c == '<' || c == '>' || c == '"')

/-- One attempted match of `https?://[^\s<>"]+` at the head of `cs`. -/
def matchHttpAt (cs : List Char) : Option (List Char) :=
  if charsPrefix "https://".data cs then
    let run := (cs.drop 8).takeWhile urlRunChar
    if run.isEmpty then none else some ("https://".data ++ run)
  else if charsPrefix "http://".data cs then
    let run := (cs.drop 7).takeWhile urlRunChar
    if run.isEmpty then none else some ("http://".data ++ run)
  else none

/-- `re.search(r'https?://[^\s<>"]+', s)`: the leftmost match. -/
def findHttpUrl : List Char → Option String
  | [] => none
  | c :: rest =>
    match matchHttpAt (c :: rest) with
    | some m => some (String.mk m)
    | none => findHttpUrl rest

/-- Outcome of the one `requests.get(...).json()` round of
`search_duckduckgo`. -/
inductive HttpJsonOutcome where
  | exc (msg : String)
  | resp (status : Nat) (body : Option Json)

/-- Outcome of the one `requests.get(...)` of `search_via_scraping`. -/
inductive HttpTextOutcome where
  | exc (msg : String)
  | resp (status : Nat) (text : String)

/-- The `Infobox` content loop: items that are dicts with
`data_type == 'string'` and `'http' in str(value)` contribute the first
embedded URL of their (string) value; a non-string value there makes
`re.search` raise. -/
def infoboxItems : List Json → Except String (List (Json × Json))
  | [] => .ok []
  | item :: rest =>
    match item with
    | .obj g =>
      if jEqStr (jGetD g "data_type" .null) "string" && jsonTextHasHttp (jGetD g "value" (.str "")) then
        match jGetD g "value" (.str "") with
        | .str vs =>
          (infoboxItems rest).map
            (fun tail =>
              match findHttpUrl vs.data with
              | some m => (jGetD g "label" (.str "Website"), Json.str m) :: tail
              | none => tail)
        | _ => .error "TypeError: re.search on a non-string value"
      else infoboxItems rest
    | _ => infoboxItems rest

/-- The body-parsing part of `search_duckduckgo` (after `.json()`
succeeded): a non-dict body returns `[]`; iterating a non-iterable
`RelatedTopics` or `Infobox.content` raises. -/
def ddgParse (data : Json) : Except String (List (Json × Json)) :=
  match data with
  | .obj fields => do
    let r1 :=
      if jTruthy (jGetD fields "AbstractURL" .null) then
        [(jGetD fields "AbstractText" (.str "Official site"), jGetD fields "AbstractURL" .null)]
      else []
    let r2 ←
      match jGetD fields "RelatedTopics" (.arr []) with
      | .arr topics =>
        Except.ok (topics.filterMap
          (fun t =>
            match t with
            | .obj tf =>
              if jTruthy (jGetD tf "FirstURL" .null) then
                some (jGetD tf "Text" (.str "Related"), jGetD tf "FirstURL" .null)
              else none
            | _ => none))
      | .str _ => Except.ok []
      | .obj _ => Except.ok []
      | _ => Except.error "TypeError: RelatedTopics is not iterable"
    let r3 ←
      match jGetD fields "Infobox" .null with
      | .obj inf =>
        if jTruthy (jGetD inf "content" .null) then
          match jGetD inf "content" .null with
          | .arr items => infoboxItems items
          | .str _ => Except.ok []
          | .obj _ => Except.ok []
          | _ => Except.error "TypeError: Infobox content is not iterable"
        else Except.ok []
      | _ => Except.ok []
    return ((r1 ++ r2 ++ r3).take 5)
  | _ => .ok []

/-- The throwing part of `search_duckduckgo`: HTTP call,
`raise_for_status` (4xx/5xx), `.json()`, then parsing. -/
def search_duckduckgo_body (_query : String) (h : HttpJsonOutcome) :
    Except String (List (Json × Json)) :=
  match h with
  | .exc msg => .error msg
  | .resp status body =>
    if 400 ≤ status then .error "HTTPError"
    else
      match body with
      | none => .error "JSONDecodeError"
      | some data => ddgParse data

/-- `search_duckduckgo`: the enclosing `except` degrades every failure
to `[]`. -/
def search_duckduckgo (query : String) (h : HttpJsonOutcome) : List (Json × Json) :=
  match search_duckduckgo_body query h with
  | .ok l => l
  | .error _ => []

/-- Hex digit test (for percent-decoding). -/
def isHexChar (c : Char) : Bool :=
  c.isDigit || ('a' ≤ c && c ≤ 'f') || ('A' ≤ c && c ≤ 'F')

/-- Hex digit value. -/
def hexVal (c : Char) : Nat :=
  if c.isDigit then c.toNat - 48 else c.toLower.toNat - 87

/-- Fuel-indexed worker for `pyUnquote`. -/
def unquoteGo : Nat → List Char → List Char
  | _, [] => []
  | 0, s => s
  | fuel + 1, c :: rest =>
    if c == '%' then
      match rest with
      | h1 :: h2 :: rest2 =>
        if isHexChar h1 && isHexChar h2 then
          Char.ofNat (16 * hexVal h1 + hexVal h2) :: unquoteGo fuel rest2
        else c :: unquoteGo fuel rest
      | _ => c :: unquoteGo fuel rest
    else c :: unquoteGo fuel rest

/-- Python `urllib.parse.unquote`, modelled byte-by-byte (the multi-byte
UTF-8 recombination is immaterial to anything proved here). -/
def pyUnquote (s : String) : String := String.mk (unquoteGo s.data.length s.data)

/-- Order-preserving first-occurrence dedup; Python's `list(set(...))`
iterates in an unspecified order, modelled here as first-occurrence
order (nothing proved below depends on the order). -/
def dedupFirst (l : List String) : List String :=
  l.foldl (fun acc s => if acc.contains s then acc else acc ++ [s]) []

/-- Fuel-indexed `re.findall(r'href="/l/\?uddg=([^"&]+)', text)`-style
scan: occurrences of the literal `pre` followed by a non-empty run of
characters not satisfying `stop`; the scan resumes after each match. -/
def scanCaptureGo (pre : List Char) (stop : Char → Bool) : Nat → List Char → List (List Char)
  | _, [] => []
  | 0, _ => []
  | fuel + 1, c :: rest =>
    if charsPrefix pre (c :: rest) then
      let after := (c :: rest).drop pre.length
      let cap := after.takeWhile (fun x => !stop x)
      if cap.isEmpty then scanCaptureGo pre stop fuel rest
      else cap :: scanCaptureGo pre stop fuel (after.drop cap.length)
    else scanCaptureGo pre stop fuel rest

/-- One attempted match of `https?://[^"]+"` (the tail of the pattern
`href="(https?://[^"]+)"`) at the head of `after`: returns the captured
URL and the text after the closing quote. -/
def matchDirectUrl (after : List Char) : Option (List Char × List Char) :=
  let tryScheme : String → Option (List Char × List Char) := fun schemeStr =>
    if charsPrefix schemeStr.data after then
      let body := after.drop schemeStr.length
      let run := body.takeWhile (fun x => !(x == '"'))
      match body.drop run.length with
      | '"' :: afterQuote =>
        if run.isEmpty then none else some (schemeStr.data ++ run, afterQuote)
      | _ => none
    else none
  match tryScheme "https://" with
  | some r => some r
  | none => tryScheme "http://"

/-- Fuel-indexed `re.findall(r'href="(https?://[^"]+)"', text)` scan. -/
def scanDirectGo : Nat → List Char → List (List Char)
  | _, [] => []
  | 0, _ => []
  | fuel + 1, c :: rest =>
    if charsPrefix "href=\"".data (c :: rest) then
      match matchDirectUrl ((c :: rest).drop 6) with
      | some (cap, afterQuote) => cap :: scanDirectGo fuel afterQuote
      | none => scanDirectGo fuel rest
    else scanDirectGo fuel rest

/-- The throwing part of `search_via_scraping`: HTTP call,
`raise_for_status`, URL extraction from the page text, skip-domain
filtering, title synthesis. -/
def search_via_scraping_body (_query : String) (h : HttpTextOutcome) :
    Except String (List (String × String)) :=
  match h with
  | .exc msg => .error msg
  | .resp status text =>
    if 400 ≤ status then .error "HTTPError"
    else
      let urls :=
        (scanCaptureGo "href=\"/l/?uddg=".data (fun c => c == '"' || c == '&')
          text.data.length text.data).map String.mk
      let direct := (scanDirectGo text.data.length text.data).map String.mk
      let all_urls := dedupFirst (urls ++ direct)
      .ok ((all_urls.take 5).foldl
        (fun acc url =>
          let decoded := pyUnquote url
          if ["duckduckgo.com", "javascript:", "mailto:"].any
              (fun sk => strContains (pyLower decoded) sk) then acc
          else acc ++ [("Search result from " ++ pyNetloc decoded, decoded)])
        [])

/-- `search_via_scraping`: the enclosing `except` degrades every failure
to `[]` (the inner per-URL `try` cannot fire: its body is total). -/
def search_via_scraping (query : String) (h : HttpTextOutcome) : List (String × String) :=
  match search_via_scraping_body query h with
  | .ok l => l
  | .error _ => []

/-! ## Auxiliary predicates used by the claim statements -/

/-- Does an operation address this candidate id directly? -/
def targetsOp : VOp → Nat → Prop
  | .add _ _ _, _ => False
  | .approve cid _ _, cid' => cid = cid'
  | .reject cid _ _ _, cid' => cid = cid'

/-- A terminal status. -/
def isTerminal (st : VerificationStatus) : Prop :=
  st = .approved ∨ st = .rejected

/-- The usage discipline under which the at-most-one-approved invariant
holds: `approve_url` is only called on currently-UNVERIFIED candidates,
and `add_url_candidates` is only called for organizations without an
APPROVED candidate.  `reject_url` is unrestricted. -/
def guardOK (s : VerificationState) : VOp → Prop
  | .add org _ _ => ∀ c ∈ s.candidates, c.organization = org → c.status ≠ .approved
  | .approve cid _ _ => statusOf s cid = some .unverified
  | .reject _ _ _ _ => True

/-- A call sequence all of whose operations respect `guardOK` in the
state where they execute. -/
def GoodFrom (s : VerificationState) : List VOp → Prop
  | [] => True
  | op :: rest => guardOK s op ∧ GoodFrom (stepOp s op) rest

/-- The at-most-one-approved invariant together with its inductive
strengthening: an organization holding an APPROVED candidate retains no
UNVERIFIED candidate. -/
def ApprovedInv (s : VerificationState) : Prop :=
  ∀ org, countApproved s org ≤ 1 ∧
    (1 ≤ countApproved s org →
      ∀ c ∈ s.candidates, c.organization = org → c.status ≠ .unverified)

/-- Structural well-formedness of a manager state (established by every
reachable state): ids are below the fresh-id counter and distinct;
pending-list entries point at existing UNVERIFIED candidates of their
organization; every UNVERIFIED candidate is on its organization's
pending list; pending lists hold no duplicates. -/
def StateWF (s : VerificationState) : Prop :=
  (∀ c ∈ s.candidates, c.id < s.nextId) ∧
  (s.candidates.map (fun c => c.id)).Nodup ∧
  (∀ org ids, alistLookup s.pending_verifications org = some ids →
    ∀ cid ∈ ids,
      (∃ c ∈ s.candidates, c.id = cid) ∧
      (∀ c ∈ s.candidates, c.id = cid → c.organization = org ∧ c.status = .unverified)) ∧
  (∀ c ∈ s.candidates, c.status = .unverified →
    ∃ ids, alistLookup s.pending_verifications c.organization = some ids ∧ c.id ∈ ids) ∧
  (∀ org ids, alistLookup s.pending_verifications org = some ids → ids.Nodup)

/-- The organizations holding at least one UNVERIFIED candidate, with
their serialized candidates, in pending-dict insertion order and without
any truncation. -/
def allPendingOrgs (s : VerificationState) : List PendingOrg :=
  s.pending_verifications.filterMap
    (fun kv =>
      let cands := unverifiedSerialized s kv.2
      if cands.isEmpty then none
      else some
        { organization := kv.1,
          display_name := pyTitle (pyReplace kv.1 "_" " "),
          candidates := cands,
          candidate_count := cands.length })

/-- `list_pending` as the specification words it: the organizations with
at least one remaining UNVERIFIED candidate, sorted descending by the
maximum confidence among the remaining candidates, THEN truncated to
`limit`.  (The source truncates before sorting; this definition exists to
be compared against the embedded one.) -/
def get_pending_verifications_spec (s : VerificationState) (limit : Nat) : List PendingOrg :=
  (List.insertionSort pendingGE (allPendingOrgs s)).take limit

/-! # Theorems -/

/-! ## Shared lemmas -/

theorem alistLookup_insert_self {β : Type} (l : List (String × β)) (k : String) (v : β) :
    alistLookup (alistInsert l k v) k = some v := by
  induction l with
  | nil => simp [alistInsert, alistLookup]
  | cons kv rest ih =>
    by_cases h : kv.1 = k
    · simp [alistInsert, alistLookup, h]
    · simpa [alistInsert, alistLookup, h] using ih

theorem alistLookup_insert_ne {β : Type} (l : List (String × β)) (k k' : String) (v : β)
    (h : k' ≠ k) : alistLookup (alistInsert l k v) k' = alistLookup l k' := by
  induction l with
  | nil => simp [alistInsert, alistLookup, Ne.symm h]
  | cons kv rest ih =>
    by_cases hk : kv.1 = k
    · subst hk
      simp [alistInsert, alistLookup, h, Ne.symm h]
    · simp only [alistInsert, if_neg hk, alistLookup]
      by_cases hk' : kv.1 = k'
      · simp [hk']
      · simpa [hk'] using ih

theorem add_url_candidates_verified_urls (cands : List (String × String × ℚ)) :
    ∀ (s : VerificationState) (org : String) (now : Nat),
      ((add_url_candidates s org cands now).2).verified_urls = s.verified_urls := by
  induction cands with
  | nil => intro s org now; simp [add_url_candidates]
  | cons tuc rest ih =>
    intro s org now
    simp only [add_url_candidates]
    exact ih _ org now

/-! ## Claim C9 -/

/-- Claim C9: the confidence scorer ranks the official Global Fund
candidate strictly above the generic blog candidate, and both scores are
deterministic values in `[0, 1]`. -/
theorem c9_confidence_scorer_ordering :
    calculate_url_confidence "Global Fund" "Random Blog" "https://example-blog.blogspot.com"
        < calculate_url_confidence "Global Fund" "The Global Fund" "https://theglobalfund.org" ∧
      (0 ≤ calculate_url_confidence "Global Fund" "The Global Fund" "https://theglobalfund.org" ∧
        calculate_url_confidence "Global Fund" "The Global Fund" "https://theglobalfund.org" ≤ 1) ∧
      (0 ≤ calculate_url_confidence "Global Fund" "Random Blog" "https://example-blog.blogspot.com" ∧
        calculate_url_confidence "Global Fund" "Random Blog" "https://example-blog.blogspot.com" ≤ 1) := by
  have h1 : confidenceFlags "Global Fund" "The Global Fund" "https://theglobalfund.org" =
      ⟨true, true, true, false, true, false, false, false, false, false⟩ := by decide
  have h2 : confidenceFlags "Global Fund" "Random Blog" "https://example-blog.blogspot.com" =
      ⟨false, false, false, false, false, false, false, false, false, true⟩ := by decide
  unfold calculate_url_confidence
  rw [h1, h2]
  norm_num [confidenceScore]

/-! ## Claim C10 -/

/-- Claim C10: `reject_url` never modifies the organization-to-verified-URL
map: for every state, candidate id, reason and user, the `verified_urls`
mapping after the call equals the mapping before it. -/
theorem c10_reject_preserves_verified_urls (s : VerificationState) (cid : Nat)
    (reason : String) (user : Option String) (now : Nat) :
    ((reject_url s cid reason user now).2).verified_urls = s.verified_urls := by
  unfold reject_url
  cases h : findCandidate s cid with
  | none => rfl
  | some cand => rfl

/-! ## Claim C7 -/

theorem find_known_hit (db : String → Option String)
    (search : String → String → List SearchCandidate) (st : ResolverState)
    (org_name context url : String) (save : Bool) (now : Nat)
    (hdb : db org_name = none)
    (hmgr : get_verified_url st.mgr (normalize_org_name org_name) = none)
    (hcache : alistLookup st.url_cache (normalize_org_name org_name) = none)
    (hknown : alistLookup KNOWN_ORGS (normalize_org_name org_name) = some url) :
    find_real_org_url_with_candidates db search st org_name save context now =
      ⟨some url, [("Known organization", url, 1)],
        { st with
          url_cache :=
            alistInsert st.url_cache (normalize_org_name org_name)
              (.entry (some url) [("Known organization", url, 1)]) },
        false⟩ := by
  unfold find_real_org_url_with_candidates
  simp [hdb, hmgr, hcache, hknown]

/-- Claim C7: resolving a name whose normalized form is a key of the
static known-organization table — when there is no durable verified
mapping, no approved candidate, and no cache entry for it — returns
exactly the table's URL with a single confidence-1 candidate, caches it,
and issues no network search. -/
theorem c7_known_orgs_roundtrip (db : String → Option String)
    (search : String → String → List SearchCandidate) (st : ResolverState)
    (org_name context url : String) (save : Bool) (now : Nat)
    (hdb : db org_name = none)
    (hmgr : get_verified_url st.mgr (normalize_org_name org_name) = none)
    (hcache : alistLookup st.url_cache (normalize_org_name org_name) = none)
    (hknown : alistLookup KNOWN_ORGS (normalize_org_name org_name) = some url) :
    find_real_org_url_with_candidates db search st org_name save context now =
      ⟨some url, [("Known organization", url, 1)],
        { st with
          url_cache :=
            alistInsert st.url_cache (normalize_org_name org_name)
              (.entry (some url) [("Known organization", url, 1)]) },
        false⟩ :=
  find_known_hit db search st org_name context url save now hdb hmgr hcache hknown

/-- Witness for C7 at the allowlisted name `"unicef"` and a fresh state:
the exact table URL comes back with confidence 1 and no search. -/
theorem c7_known_orgs_roundtrip_witness :
    find_real_org_url_with_candidates (fun _ => none) (fun _ _ => [])
        ⟨initVerificationState, []⟩ "unicef" true "" 0 =
      ⟨some "https://www.unicef.org",
        [("Known organization", "https://www.unicef.org", 1)],
        ⟨initVerificationState,
          [("unicef",
            .entry (some "https://www.unicef.org")
              [("Known organization", "https://www.unicef.org", 1)])]⟩,
        false⟩ := by
  have h := c7_known_orgs_roundtrip (fun _ => none) (fun _ _ => [])
    ⟨initVerificationState, []⟩ "unicef" "" "https://www.unicef.org" true 0
    rfl rfl rfl (by decide)
  exact h

/-! ## Claim C5 -/

/-- Claim C5: for every query and every behaviour of the HTTP layer,
`search_duckduckgo` and `search_via_scraping` return a plain list of
(title, url) pairs, and any internal failure — a raised request
(connection error / timeout), a 4xx/5xx status, a body `.json()` cannot
parse, a non-dict JSON body, or any other exception inside the body —
yields the empty list rather than a propagated exception. -/
theorem c5_search_never_raises (query e : String) (status : Nat)
    (hJ : HttpJsonOutcome) (hT : HttpTextOutcome) :
    search_duckduckgo query (.exc e) = [] ∧
      search_via_scraping query (.exc e) = [] ∧
      (400 ≤ status → ∀ body, search_duckduckgo query (.resp status body) = []) ∧
      (400 ≤ status → ∀ text, search_via_scraping query (.resp status text) = []) ∧
      search_duckduckgo query (.resp status none) = [] ∧
      (∀ j : Json, (∀ fields, j ≠ .obj fields) →
        search_duckduckgo query (.resp status (some j)) = []) ∧
      ((search_duckduckgo_body query hJ).isOk = false → search_duckduckgo query hJ = []) ∧
      ((search_via_scraping_body query hT).isOk = false → search_via_scraping query hT = []) := by
  refine ⟨rfl, rfl, ?_, ?_, ?_, ?_, ?_, ?_⟩
  · intro h400 body
    simp [search_duckduckgo, search_duckduckgo_body, if_pos h400]
  · intro h400 text
    simp [search_via_scraping, search_via_scraping_body, if_pos h400]
  · by_cases h400 : 400 ≤ status <;>
      simp [search_duckduckgo, search_duckduckgo_body, h400]
  · intro j hj
    by_cases h400 : 400 ≤ status
    · simp [search_duckduckgo, search_duckduckgo_body, h400]
    · unfold search_duckduckgo search_duckduckgo_body
      simp only [if_neg h400]
      cases j with
      | obj fields => exact absurd rfl (hj fields)
      | null => rfl
      | bool b => rfl
      | num q => rfl
      | str s => rfl
      | arr l => rfl
  · intro hfail
    unfold search_duckduckgo
    cases h : search_duckduckgo_body query hJ with
    | ok l => rw [h] at hfail; simp [Except.isOk, Except.toBool] at hfail
    | error m => rfl
  · intro hfail
    unfold search_via_scraping
    cases h : search_via_scraping_body query hT with
    | ok l => rw [h] at hfail; simp [Except.isOk, Except.toBool] at hfail
    | error m => rfl

/-- Witness for C5: concrete failing outcomes (raised connection error,
HTTP 503, malformed JSON) all yield the empty list. -/
theorem c5_search_never_raises_witness :
    search_duckduckgo "Acme official website" (.exc "ConnectionError") = [] ∧
      search_via_scraping "Acme official website" (.resp 503 "<html></html>") = [] ∧
      search_duckduckgo "Acme official website" (.resp 200 none) = [] ∧
      search_duckduckgo "Acme official website" (.resp 200 (some (.str "oops"))) = [] := by
  have h := c5_search_never_raises "Acme official website" "ConnectionError" 503
    (.resp 200 none) (.resp 503 "<html></html>")
  have h' := c5_search_never_raises "Acme official website" "ConnectionError" 200
    (.resp 200 none) (.resp 503 "<html></html>")
  exact ⟨h.1, h.2.2.2.1 (by norm_num) "<html></html>",
    h'.2.2.2.2.1, h'.2.2.2.2.2.1 (.str "oops") (by intro f hf; cases hf)⟩

/-! ## Claim C8 -/

theorem foldl_append_only_head {β : Type} (f : List String → β → List String)
    (hf : ∀ acc b, ∃ t, f acc b = acc ++ t) :
    ∀ (l : List β) (a : String) (t : List String), (l.foldl f (a :: t)).head? = some a := by
  intro l
  induction l with
  | nil => intro a t; rfl
  | cons b rest ih =>
    intro a t
    obtain ⟨t', ht'⟩ := hf (a :: t) b
    simp only [List.foldl_cons, ht', List.cons_append]
    exact ih a (t ++ t')

/-- Counterexample to claim C8 as stated: the expansion of
`"GAVI Alliance"` on an empty context contains the base name twice — the
static expansion table is appended without deduplication. -/
theorem c8_counterexample :
    expand_organization_name "GAVI Alliance" [] =
      ["GAVI Alliance", "GAVI the Vaccine Alliance", "GAVI Alliance",
        "Gavi Vaccine Alliance"] ∧
      ¬ (expand_organization_name "GAVI Alliance" []).Nodup := by
  exact ⟨by decide, by decide⟩

theorem append_only_self (acc : List String) : ∃ t, acc = acc ++ t :=
  ⟨[], (List.append_nil acc).symm⟩

theorem append_only_append (acc t : List String) : ∃ t', acc ++ t = acc ++ t' := ⟨t, rfl⟩

theorem append_only_ite {c : Prop} [Decidable c] {acc u v : List String}
    (h1 : ∃ t, u = acc ++ t) (h2 : ∃ t, v = acc ++ t) :
    ∃ t, (if c then u else v) = acc ++ t := by
  by_cases hc : c
  · rw [if_pos hc]; exact h1
  · rw [if_neg hc]; exact h2

/-- Claim C8 (amended): for every organization name and every context
(match list), the first element of the expansion is the input name with
underscores and hyphens replaced by spaces (stripped); the list is not
duplicate-free in general, and `expand("XYZ_Org", "")` returns exactly
`["XYZ Org"]` without raising on an empty context. -/
theorem c8_expansion_fallback (org_name : String) (ctxMatches : List String) :
    (expand_organization_name org_name ctxMatches).head? = some (baseOrgName org_name) ∧
      expand_organization_name "XYZ_Org" [] = ["XYZ Org"] := by
  refine ⟨?_, by decide⟩
  unfold expand_organization_name
  simp only
  have h1 :=
    foldl_append_only_head
      (fun (acc : List String) (kv : String × List String) =>
        if
            strContains (pyLower (baseOrgName org_name)) kv.1 ||
              strContains kv.1 (pyLower (baseOrgName org_name)) then
          acc ++ kv.2
        else acc)
      (fun acc kv => append_only_ite (append_only_append acc kv.2) (append_only_self acc))
      orgExpansions (baseOrgName org_name) []
  cases hfold :
      orgExpansions.foldl
        (fun acc kv =>
          if
              strContains (pyLower (baseOrgName org_name)) kv.1 ||
                strContains kv.1 (pyLower (baseOrgName org_name)) then
            acc ++ kv.2
          else acc)
        [baseOrgName org_name] with
  | nil => rw [hfold] at h1; cases h1
  | cons x t1 =>
    rw [hfold] at h1
    have hx : x = baseOrgName org_name := by simpa using h1
    subst hx
    refine foldl_append_only_head _ ?_ ctxMatches _ t1
    intro acc m
    exact append_only_ite
      (append_only_ite (append_only_self acc) (append_only_append acc _))
      (append_only_self acc)

/-! ## Claim C4 -/

theorem collectPendingOrgs_eq_take (s : VerificationState) (limit : Nat) :
    ∀ (l : List (String × List Nat)) (count : Nat),
      collectPendingOrgs s limit l count =
        (l.filterMap
          (fun kv =>
            let cands := unverifiedSerialized s kv.2
            if cands.isEmpty then none
            else some
              { organization := kv.1,
                display_name := pyTitle (pyReplace kv.1 "_" " "),
                candidates := cands,
                candidate_count := cands.length })).take (limit - count) := by
  intro l
  induction l with
  | nil => intro count; simp [collectPendingOrgs]
  | cons kv rest ih =>
    intro count
    by_cases hlim : limit ≤ count
    · have h0 : limit - count = 0 := Nat.sub_eq_zero_of_le hlim
      simp [collectPendingOrgs, hlim, h0]
    · by_cases hc : (unverifiedSerialized s kv.2).isEmpty
      · have hc' : unverifiedSerialized s kv.2 = [] := by simpa using hc
        by_cases hids : kv.2.isEmpty
        · simp [collectPendingOrgs, hlim, hc', hids, ih, List.filterMap_cons]
        · simp [collectPendingOrgs, hlim, hc', hids, ih, List.filterMap_cons]
      · have hids : ¬ kv.2.isEmpty := by
          intro h
          rw [List.isEmpty_iff] at h
          rw [h] at hc
          exact hc rfl
        have hsub : limit - count = (limit - (count + 1)) + 1 := by omega
        simp only [collectPendingOrgs, if_neg hlim, if_neg hids, if_neg hc,
          List.filterMap_cons, hsub, List.take_succ_cons]
        rw [ih (count + 1)]

/-- Claim C4 (amended): `get_pending_verifications` returns the
organizations whose pending entry retains at least one UNVERIFIED
candidate, serialized with id/url/title/confidence/found_at — but the
outer list is first truncated to the first `limit` qualifying
organizations in pending-dict insertion order and only then sorted
descending by the maximum confidence among the remaining UNVERIFIED
candidates; the result is sorted and has at most `limit` entries. -/
theorem c4_pending_truncate_then_sort (s : VerificationState) (limit : Nat) :
    get_pending_verifications s limit =
        List.insertionSort pendingGE ((allPendingOrgs s).take limit) ∧
      (get_pending_verifications s limit).Sorted pendingGE ∧
      (get_pending_verifications s limit).length ≤ limit := by
  have heq : get_pending_verifications s limit =
      List.insertionSort pendingGE ((allPendingOrgs s).take limit) := by
    unfold get_pending_verifications allPendingOrgs
    rw [collectPendingOrgs_eq_take s limit s.pending_verifications 0, Nat.sub_zero]
  refine ⟨heq, ?_, ?_⟩
  · rw [heq]
    exact List.sorted_insertionSort pendingGE _
  · rw [heq]
    calc (List.insertionSort pendingGE ((allPendingOrgs s).take limit)).length
        = ((allPendingOrgs s).take limit).length :=
          (List.perm_insertionSort pendingGE _).length_eq
      _ ≤ limit := by
          rw [List.length_take]
          exact Nat.min_le_left _ _

/-- Counterexample to claim C4 as stated: with two pending organizations
whose best confidences are 0 and 1 (in that insertion order) and
`limit = 1`, the code returns the first-inserted, lower-confidence
organization, while sort-then-truncate (the claim's order of operations)
would return the higher-confidence one. -/
theorem c4_counterexample :
    (get_pending_verifications
        (runOps
          [.add "org_a" [("A", "https://a.org", 0)] 0,
            .add "org_b" [("B", "https://b.org", 1)] 0]) 1).map
        (fun o => o.organization) = ["org_a"] ∧
      (get_pending_verifications_spec
        (runOps
          [.add "org_a" [("A", "https://a.org", 0)] 0,
            .add "org_b" [("B", "https://b.org", 1)] 0]) 1).map
        (fun o => o.organization) = ["org_b"] := by
  exact ⟨by decide, by decide⟩

/-! ## Claim C1 -/

theorem find_live_nil (db : String → Option String)
    (search : String → String → List SearchCandidate) (st : ResolverState)
    (org_name context : String) (save : Bool) (now : Nat)
    (hdb : db org_name = none)
    (hmgr : get_verified_url st.mgr (normalize_org_name org_name) = none)
    (hcache : alistLookup st.url_cache (normalize_org_name org_name) = none)
    (hknown : alistLookup KNOWN_ORGS (normalize_org_name org_name) = none)
    (hs : search org_name context = []) :
    find_real_org_url_with_candidates db search st org_name save context now =
      ⟨none, [],
        { st with
          url_cache :=
            alistInsert st.url_cache (normalize_org_name org_name) (.entry none []) },
        true⟩ := by
  unfold find_real_org_url_with_candidates
  simp [hdb, hmgr, hcache, hknown, hs]

theorem find_live_cons (db : String → Option String)
    (search : String → String → List SearchCandidate) (st : ResolverState)
    (org_name context : String) (save : Bool) (now : Nat)
    (t u : String) (c : ℚ) (rest : List SearchCandidate)
    (hdb : db org_name = none)
    (hmgr : get_verified_url st.mgr (normalize_org_name org_name) = none)
    (hcache : alistLookup st.url_cache (normalize_org_name org_name) = none)
    (hknown : alistLookup KNOWN_ORGS (normalize_org_name org_name) = none)
    (hs : search org_name context = (t, u, c) :: rest) :
    find_real_org_url_with_candidates db search st org_name save context now =
      (let best : Option String :=
        if 19/20 ≤ c ∧ is_known_pattern org_name = true then some u else none
      ⟨best, (t, u, c) :: rest,
        { mgr :=
            if save then
              (add_url_candidates st.mgr (normalize_org_name org_name) ((t, u, c) :: rest) now).2
            else st.mgr,
          url_cache :=
            alistInsert st.url_cache (normalize_org_name org_name)
              (.entry best ((t, u, c) :: rest)) },
        true⟩) := by
  unfold find_real_org_url_with_candidates
  simp [hdb, hmgr, hcache, hknown, hs]

theorem resolveObject_frame (db : String → Option String)
    (search : String → String → List SearchCandidate) (st : ResolverState)
    (claim : ClaimData) (context document_url : String) (now : Nat) :
    ((resolveObject db search st claim context document_url now).1).subject = claim.subject ∧
      (claim.urls_need_verification = some true →
        ((resolveObject db search st claim context document_url now).1).urls_need_verification =
          some true) := by
  unfold resolveObject objectNeedsVerification
  constructor
  · dsimp only
    repeat' split
    all_goals rfl
  · intro hflag
    dsimp only
    repeat' split
    all_goals simp [hflag]

/-- Claim C1: on the live-search path (no durable verified mapping, no
approved candidate, no cache entry, no static-allowlist hit for the
normalized name), `find_real_org_url_with_candidates` returns a non-`none`
best URL only if the top search candidate's confidence is at least 0.95
and the lowercased name contains a known-pattern keyword; in every other
case the best URL is `none`, and `resolve_claim_urls` then leaves a
URN-placeholder subject unchanged and sets `urls_need_verification` to
`True`. -/
theorem c1_auto_acceptance_policy (db : String → Option String)
    (search : String → String → List SearchCandidate) (hash : String → Int)
    (st : ResolverState) (org_name context : String) (now : Nat)
    (hdb : db org_name = none)
    (hmgr : get_verified_url st.mgr (normalize_org_name org_name) = none)
    (hcache : alistLookup st.url_cache (normalize_org_name org_name) = none)
    (hknown : alistLookup KNOWN_ORGS (normalize_org_name org_name) = none) :
    (∀ u,
        (find_real_org_url_with_candidates db search st org_name true context now).best = some u →
        ∃ t c rest,
          search org_name context = (t, u, c) :: rest ∧
            19/20 ≤ c ∧ is_known_pattern org_name = true) ∧
      (∀ t u c rest,
        search org_name context = (t, u, c) :: rest →
        ¬(19/20 ≤ c ∧ is_known_pattern org_name = true) →
        (find_real_org_url_with_candidates db search st org_name true context now).best = none) ∧
      (search org_name context = [] →
        (find_real_org_url_with_candidates db search st org_name true context now).best = none) ∧
      (∀ (claim : ClaimData) (document_url : String),
        (find_real_org_url_with_candidates db search st org_name true context now).best = none →
        (pyStartsWith claim.subject "urn:local:org:" ||
          pyStartsWith claim.subject "urn:local:program:") = true →
        extract_org_name_from_urn claim.subject = org_name →
        ((resolve_claim_urls db search hash st claim context document_url now).1.subject =
            claim.subject ∧
          (resolve_claim_urls db search hash st claim context document_url now).1.urls_need_verification =
            some true)) := by
  refine ⟨?_, ?_, ?_, ?_⟩
  · intro u hbest
    cases hs : search org_name context with
    | nil =>
      rw [find_live_nil db search st org_name context true now hdb hmgr hcache hknown hs] at hbest
      cases hbest
    | cons hd tl =>
      obtain ⟨t, u0, c⟩ := hd
      rw [find_live_cons db search st org_name context true now t u0 c tl
        hdb hmgr hcache hknown hs] at hbest
      by_cases hcond : 19/20 ≤ c ∧ is_known_pattern org_name = true
      · simp only [if_pos hcond] at hbest
        cases hbest
        exact ⟨t, c, tl, rfl, hcond.1, hcond.2⟩
      · simp only [if_neg hcond] at hbest
        cases hbest
  · intro t u c rest hs hcond
    rw [find_live_cons db search st org_name context true now t u c rest
      hdb hmgr hcache hknown hs]
    simp only [if_neg hcond]
  · intro hs
    rw [find_live_nil db search st org_name context true now hdb hmgr hcache hknown hs]
  · intro claim document_url hbest hurn hext
    have hsub :
        resolveSubject db search hash st claim context now =
          (subjectNeedsVerification hash claim
            (find_real_org_url_with_candidates db search st org_name true context now) org_name,
            (find_real_org_url_with_candidates db search st org_name true context now).state) := by
      unfold resolveSubject
      rw [if_pos hurn, hext]
      dsimp only
      rw [hbest]
    have hsubfields :
        (subjectNeedsVerification hash claim
          (find_real_org_url_with_candidates db search st org_name true context now)
          org_name).subject = claim.subject ∧
        (subjectNeedsVerification hash claim
          (find_real_org_url_with_candidates db search st org_name true context now)
          org_name).urls_need_verification = some true := by
      unfold subjectNeedsVerification
      exact ⟨rfl, rfl⟩
    unfold resolve_claim_urls
    rw [hsub]
    have hframe := resolveObject_frame db search
      (find_real_org_url_with_candidates db search st org_name true context now).state
      (subjectNeedsVerification hash claim
        (find_real_org_url_with_candidates db search st org_name true context now) org_name)
      context document_url now
    exact ⟨hsubfields.1 ▸ hframe.1, hframe.2 hsubfields.2⟩

/-- Witness for C1: a fresh state, a search returning one candidate with
confidence 0.9 for the non-allowlisted name `"Acme_Corp"`: the best URL
is `none`, the claim's subject stays the URN placeholder, and
`urls_need_verification` is set. -/
theorem c1_auto_acceptance_policy_witness :
    (find_real_org_url_with_candidates (fun _ => none)
        (fun _ _ => [("Acme", "https://acme.org", 9/10)])
        ⟨initVerificationState, []⟩ "Acme_Corp" true "" 0).best = none ∧
      (resolve_claim_urls (fun _ => none)
          (fun _ _ => [("Acme", "https://acme.org", 9/10)]) (fun _ => 0)
          ⟨initVerificationState, []⟩
          ⟨"urn:local:org:Acme_Corp", "", none, none, none, none, none, none, none, none,
            none, none, none⟩
          "" "" 0).1.subject = "urn:local:org:Acme_Corp" ∧
      (resolve_claim_urls (fun _ => none)
          (fun _ _ => [("Acme", "https://acme.org", 9/10)]) (fun _ => 0)
          ⟨initVerificationState, []⟩
          ⟨"urn:local:org:Acme_Corp", "", none, none, none, none, none, none, none, none,
            none, none, none⟩
          "" "" 0).1.urls_need_verification = some true := by
  have h := c1_auto_acceptance_policy (fun _ => none)
    (fun _ _ => [("Acme", "https://acme.org", 9/10)]) (fun _ => 0)
    ⟨initVerificationState, []⟩ "Acme_Corp" "" 0 rfl rfl rfl (by decide)
  have hbest := h.2.1 "Acme" "https://acme.org" (9/10) [] rfl
    (by
      intro hcond
      have := hcond.1
      norm_num at this)
  have hres := h.2.2.2
    ⟨"urn:local:org:Acme_Corp", "", none, none, none, none, none, none, none, none,
      none, none, none⟩
    "" hbest (by decide) (by decide)
  exact ⟨hbest, hres.1, hres.2⟩

/-! ## Claim C6 -/

theorem find_db_hit (db : String → Option String)
    (search : String → String → List SearchCandidate) (st : ResolverState)
    (org_name context u : String) (save : Bool) (now : Nat)
    (hdb : db org_name = some u) :
    find_real_org_url_with_candidates db search st org_name save context now =
      ⟨some u, [("Database verified", u, 1)], st, false⟩ := by
  unfold find_real_org_url_with_candidates
  simp [hdb]

theorem find_mgr_hit (db : String → Option String)
    (search : String → String → List SearchCandidate) (st : ResolverState)
    (org_name context u : String) (save : Bool) (now : Nat)
    (hdb : db org_name = none)
    (hmgr : get_verified_url st.mgr (normalize_org_name org_name) = some u) :
    find_real_org_url_with_candidates db search st org_name save context now =
      ⟨some u, [("User verified", u, 1)], st, false⟩ := by
  unfold find_real_org_url_with_candidates
  simp [hdb, hmgr]

theorem find_cache_legacy (db : String → Option String)
    (search : String → String → List SearchCandidate) (st : ResolverState)
    (org_name context u : String) (save : Bool) (now : Nat)
    (hdb : db org_name = none)
    (hmgr : get_verified_url st.mgr (normalize_org_name org_name) = none)
    (hcache : alistLookup st.url_cache (normalize_org_name org_name) = some (.legacy u)) :
    find_real_org_url_with_candidates db search st org_name save context now =
      ⟨some u, [("Cached result", u, 1)], st, false⟩ := by
  unfold find_real_org_url_with_candidates
  simp [hdb, hmgr, hcache]

theorem find_cache_entry (db : String → Option String)
    (search : String → String → List SearchCandidate) (st : ResolverState)
    (org_name context : String) (save : Bool) (now : Nat)
    (b : Option String) (cands : List SearchCandidate)
    (hdb : db org_name = none)
    (hmgr : get_verified_url st.mgr (normalize_org_name org_name) = none)
    (hcache : alistLookup st.url_cache (normalize_org_name org_name) = some (.entry b cands)) :
    find_real_org_url_with_candidates db search st org_name save context now =
      ⟨b, cands, st, false⟩ := by
  unfold find_real_org_url_with_candidates
  simp [hdb, hmgr, hcache]

theorem get_verified_url_after_optional_add (save : Bool) (s : VerificationState)
    (org key : String) (cands : List SearchCandidate) (now : Nat)
    (h : get_verified_url s key = none) :
    get_verified_url (if save then (add_url_candidates s org cands now).2 else s) key = none := by
  cases save
  · simpa using h
  · show alistLookup ((add_url_candidates s org cands now).2).verified_urls key = none
    rw [add_url_candidates_verified_urls]
    exact h

/-- Claim C6: resolution is cache-idempotent — a second
`find_real_org_url_with_candidates` call with identical inputs (no
intervening approve/reject, unchanged durable store) issues no network
search and returns the same `(best, candidates)` pair; and whenever the
first call took the live-search path, its result (successful or not) is
in the resolution cache under the normalized organization name. -/
theorem c6_resolution_cache_idempotent (db : String → Option String)
    (search : String → String → List SearchCandidate) (st : ResolverState)
    (org_name context : String) (save : Bool) (now : Nat) :
    (find_real_org_url_with_candidates db search
        (find_real_org_url_with_candidates db search st org_name save context now).state
        org_name save context now).best =
      (find_real_org_url_with_candidates db search st org_name save context now).best ∧
    (find_real_org_url_with_candidates db search
        (find_real_org_url_with_candidates db search st org_name save context now).state
        org_name save context now).candidates =
      (find_real_org_url_with_candidates db search st org_name save context now).candidates ∧
    (find_real_org_url_with_candidates db search
        (find_real_org_url_with_candidates db search st org_name save context now).state
        org_name save context now).searched = false ∧
    ((find_real_org_url_with_candidates db search st org_name save context now).searched = true →
      alistLookup
          (find_real_org_url_with_candidates db search st org_name save context now).state.url_cache
          (normalize_org_name org_name) =
        some (.entry
          (find_real_org_url_with_candidates db search st org_name save context now).best
          (find_real_org_url_with_candidates db search st org_name save context now).candidates)) := by
  rcases hdb : db org_name with _ | u
  · rcases hmgr : get_verified_url st.mgr (normalize_org_name org_name) with _ | u
    · rcases hcache : alistLookup st.url_cache (normalize_org_name org_name) with _ | entry
      · rcases hknown : alistLookup KNOWN_ORGS (normalize_org_name org_name) with _ | url
        · rcases hs : search org_name context with _ | ⟨⟨t, u, c⟩, rest⟩
          · have h1 := find_live_nil db search st org_name context save now
              hdb hmgr hcache hknown hs
            rw [h1]
            have h2 := find_cache_entry db search
              ⟨st.mgr,
                alistInsert st.url_cache (normalize_org_name org_name) (.entry none [])⟩
              org_name context save now none [] hdb hmgr (alistLookup_insert_self _ _ _)
            rw [show ((⟨none, [],
                  { st with
                    url_cache :=
                      alistInsert st.url_cache (normalize_org_name org_name) (.entry none []) },
                  true⟩ : FindResult)).state =
                ⟨st.mgr,
                  alistInsert st.url_cache (normalize_org_name org_name) (.entry none [])⟩ from rfl,
              h2]
            exact ⟨rfl, rfl, rfl, fun _ => alistLookup_insert_self _ _ _⟩
          · have h1 := find_live_cons db search st org_name context save now t u c rest
              hdb hmgr hcache hknown hs
            rw [h1]
            dsimp only
            have hv := get_verified_url_after_optional_add save st.mgr
              (normalize_org_name org_name) (normalize_org_name org_name)
              ((t, u, c) :: rest) now hmgr
            have h2 := find_cache_entry db search
              ⟨(if save then
                  (add_url_candidates st.mgr (normalize_org_name org_name)
                    ((t, u, c) :: rest) now).2
                else st.mgr),
                alistInsert st.url_cache (normalize_org_name org_name)
                  (.entry
                    (if 19/20 ≤ c ∧ is_known_pattern org_name = true then some u else none)
                    ((t, u, c) :: rest))⟩
              org_name context save now
              (if 19/20 ≤ c ∧ is_known_pattern org_name = true then some u else none)
              ((t, u, c) :: rest) hdb hv (alistLookup_insert_self _ _ _)
            rw [h2]
            exact ⟨rfl, rfl, rfl, fun _ => alistLookup_insert_self _ _ _⟩
        · have h1 := find_known_hit db search st org_name context url save now
            hdb hmgr hcache hknown
          rw [h1]
          have h2 := find_cache_entry db search
            ⟨st.mgr,
              alistInsert st.url_cache (normalize_org_name org_name)
                (.entry (some url) [("Known organization", url, 1)])⟩
            org_name context save now (some url) [("Known organization", url, 1)]
            hdb hmgr (alistLookup_insert_self _ _ _)
          rw [show ((⟨some url, [("Known organization", url, 1)],
                { st with
                  url_cache :=
                    alistInsert st.url_cache (normalize_org_name org_name)
                      (.entry (some url) [("Known organization", url, 1)]) },
                false⟩ : FindResult)).state =
              ⟨st.mgr,
                alistInsert st.url_cache (normalize_org_name org_name)
                  (.entry (some url) [("Known organization", url, 1)])⟩ from rfl,
            h2]
          exact ⟨rfl, rfl, rfl, fun h => by cases h⟩
      · rcases entry with u | ⟨b, cands⟩
        · have h1 := find_cache_legacy db search st org_name context u save now hdb hmgr hcache
          rw [h1]
          rw [find_cache_legacy db search st org_name context u save now hdb hmgr hcache]
          exact ⟨rfl, rfl, rfl, fun h => by cases h⟩
        · have h1 := find_cache_entry db search st org_name context save now b cands
            hdb hmgr hcache
          rw [h1]
          rw [find_cache_entry db search st org_name context save now b cands hdb hmgr hcache]
          exact ⟨rfl, rfl, rfl, fun h => by cases h⟩
    · have h1 := find_mgr_hit db search st org_name context u save now hdb hmgr
      rw [h1]
      rw [find_mgr_hit db search st org_name context u save now hdb hmgr]
      exact ⟨rfl, rfl, rfl, fun h => by cases h⟩
  · have h1 := find_db_hit db search st org_name context u save now hdb
    rw [h1]
    rw [find_db_hit db search st org_name context u save now hdb]
    exact ⟨rfl, rfl, rfl, fun h => by cases h⟩

/-- Witness for C6: a fresh state and a search with no results — the
first call searches and caches the negative result, the second call
returns the same answer from the cache without searching. -/
theorem c6_resolution_cache_idempotent_witness :
    (find_real_org_url_with_candidates (fun _ => none) (fun _ _ => [])
        ⟨initVerificationState, []⟩ "acme" true "" 0).searched = true ∧
      alistLookup
          (find_real_org_url_with_candidates (fun _ => none) (fun _ _ => [])
            ⟨initVerificationState, []⟩ "acme" true "" 0).state.url_cache
          (normalize_org_name "acme") =
        some (.entry
          (find_real_org_url_with_candidates (fun _ => none) (fun _ _ => [])
            ⟨initVerificationState, []⟩ "acme" true "" 0).best
          (find_real_org_url_with_candidates (fun _ => none) (fun _ _ => [])
            ⟨initVerificationState, []⟩ "acme" true "" 0).candidates) ∧
      (find_real_org_url_with_candidates (fun _ => none) (fun _ _ => [])
          (find_real_org_url_with_candidates (fun _ => none) (fun _ _ => [])
            ⟨initVerificationState, []⟩ "acme" true "" 0).state
          "acme" true "" 0).best =
        (find_real_org_url_with_candidates (fun _ => none) (fun _ _ => [])
          ⟨initVerificationState, []⟩ "acme" true "" 0).best ∧
      (find_real_org_url_with_candidates (fun _ => none) (fun _ _ => [])
          (find_real_org_url_with_candidates (fun _ => none) (fun _ _ => [])
            ⟨initVerificationState, []⟩ "acme" true "" 0).state
          "acme" true "" 0).searched = false := by
  have h := c6_resolution_cache_idempotent (fun _ => none) (fun _ _ => [])
    ⟨initVerificationState, []⟩ "acme" "" true 0
  exact ⟨by decide, h.2.2.2 (by decide), h.1, h.2.2.1⟩

/-! ## Claims C2 and C3: counterexamples -/

/-- Counterexample to claim C2 as stated: add two candidates for one
organization, approve the first (the second is auto-rejected), then call
`approve_url` on the now-REJECTED second candidate — it succeeds and the
organization ends with TWO APPROVED candidates. -/
theorem c2_counterexample :
    countApproved
        (runOps
          [.add "acme" [("A", "https://a.org", 1), ("B", "https://b.org", 1)] 0,
            .approve 0 "alice" 1,
            .approve 1 "alice" 2]) "acme" = 2 ∧
      statusOf
        (runOps
          [.add "acme" [("A", "https://a.org", 1), ("B", "https://b.org", 1)] 0,
            .approve 0 "alice" 1,
            .approve 1 "alice" 2]) 0 = some .approved ∧
      statusOf
        (runOps
          [.add "acme" [("A", "https://a.org", 1), ("B", "https://b.org", 1)] 0,
            .approve 0 "alice" 1,
            .approve 1 "alice" 2]) 1 = some .approved := by
  exact ⟨by decide, by decide, by decide⟩

/-- Counterexample to claim C3 as stated: a candidate that reached the
terminal status REJECTED transitions to APPROVED when `approve_url` is
called on it. -/
theorem c3_counterexample :
    statusOf
        (runOps
          [.add "acme" [("Acme", "https://acme.org", 1)] 0,
            .reject 0 "wrong" none 1]) 0 = some .rejected ∧
      statusOf
        (runOps
          [.add "acme" [("Acme", "https://acme.org", 1)] 0,
            .reject 0 "wrong" none 1,
            .approve 0 "alice" 2]) 0 = some .approved := by
  exact ⟨by decide, by decide⟩

/-! ## Claims C2 and C3: manager invariants -/

theorem mem_of_mem_removeFirst {l : List Nat} {x y : Nat} (h : x ∈ removeFirst l y) :
    x ∈ l := by
  induction l with
  | nil => simp [removeFirst] at h
  | cons a t ih =>
    by_cases ha : a == y
    · rw [removeFirst, if_pos ha] at h
      exact List.mem_cons_of_mem a h
    · rw [removeFirst, if_neg ha] at h
      rcases List.mem_cons.mp h with h1 | h1
      · exact h1 ▸ List.mem_cons_self a t
      · exact List.mem_cons_of_mem a (ih h1)

theorem mem_removeFirst_of_ne {l : List Nat} {x y : Nat} (hx : x ∈ l) (hne : x ≠ y) :
    x ∈ removeFirst l y := by
  induction l with
  | nil => simp at hx
  | cons a t ih =>
    by_cases ha : a == y
    · rw [removeFirst, if_pos ha]
      rcases List.mem_cons.mp hx with h1 | h1
      · exact absurd (h1.trans (by simpa using ha)) hne
      · exact h1
    · rw [removeFirst, if_neg ha]
      rcases List.mem_cons.mp hx with h1 | h1
      · exact h1 ▸ List.mem_cons_self a _
      · exact List.mem_cons_of_mem a (ih h1)

theorem not_mem_removeFirst_self {l : List Nat} (hl : l.Nodup) (y : Nat) :
    y ∉ removeFirst l y := by
  induction l with
  | nil => simp [removeFirst]
  | cons a t ih =>
    by_cases ha : a == y
    · rw [removeFirst, if_pos ha]
      have : a = y := by simpa using ha
      subst this
      exact (List.nodup_cons.mp hl).1
    · rw [removeFirst, if_neg ha]
      intro hmem
      rcases List.mem_cons.mp hmem with h1 | h1
      · exact ha (by simpa using h1.symm)
      · exact ih (List.nodup_cons.mp hl).2 h1

theorem nodup_removeFirst {l : List Nat} (hl : l.Nodup) (y : Nat) :
    (removeFirst l y).Nodup := by
  induction l with
  | nil => simp [removeFirst]
  | cons a t ih =>
    by_cases ha : a == y
    · rw [removeFirst, if_pos ha]
      exact (List.nodup_cons.mp hl).2
    · rw [removeFirst, if_neg ha]
      refine List.nodup_cons.mpr ⟨?_, ih (List.nodup_cons.mp hl).2⟩
      intro hmem
      exact (List.nodup_cons.mp hl).1 (mem_of_mem_removeFirst hmem)

theorem approveMark_id (cid : Nat) (user : String) (now : Nat) (c : URLCandidate) :
    (approveMark cid user now c).id = c.id := by
  unfold approveMark; split <;> rfl

theorem approveMark_org (cid : Nat) (user : String) (now : Nat) (c : URLCandidate) :
    (approveMark cid user now c).organization = c.organization := by
  unfold approveMark; split <;> rfl

theorem rejectSiblings_id (rest : List Nat) (c : URLCandidate) :
    (rejectSiblings rest c).id = c.id := by
  unfold rejectSiblings; split <;> rfl

theorem rejectSiblings_org (rest : List Nat) (c : URLCandidate) :
    (rejectSiblings rest c).organization = c.organization := by
  unfold rejectSiblings; split <;> rfl

theorem rejectMark_id (cid : Nat) (reason : String) (user : Option String) (now : Nat)
    (c : URLCandidate) : (rejectMark cid reason user now c).id = c.id := by
  unfold rejectMark; split <;> rfl

theorem rejectMark_org (cid : Nat) (reason : String) (user : Option String) (now : Nat)
    (c : URLCandidate) : (rejectMark cid reason user now c).organization = c.organization := by
  unfold rejectMark; split <;> rfl

theorem approveMark_of_ne {cid : Nat} {user : String} {now : Nat} {c : URLCandidate}
    (h : c.id ≠ cid) : approveMark cid user now c = c := by
  unfold approveMark
  rw [if_neg (by simpa using h)]

theorem rejectMark_of_ne {cid : Nat} {reason : String} {user : Option String} {now : Nat}
    {c : URLCandidate} (h : c.id ≠ cid) : rejectMark cid reason user now c = c := by
  unfold rejectMark
  rw [if_neg (by simpa using h)]

theorem rejectSiblings_of_not_mem {rest : List Nat} {c : URLCandidate}
    (h : c.id ∉ rest) : rejectSiblings rest c = c := by
  unfold rejectSiblings
  rw [if_neg (by simpa using h)]

theorem find?_map_id_pres (g : URLCandidate → URLCandidate)
    (hg : ∀ c, (g c).id = c.id) (cid : Nat) : ∀ (l : List URLCandidate),
    (l.map g).find? (fun c => c.id == cid) = (l.find? (fun c => c.id == cid)).map g := by
  intro l
  induction l with
  | nil => rfl
  | cons a t ih =>
    have hbeq : ((g a).id == cid) = (a.id == cid) := by rw [hg a]
    rw [List.map_cons, List.find?_cons, List.find?_cons, hbeq]
    by_cases h : (a.id == cid) = true
    · rw [h]; rfl
    · rw [Bool.not_eq_true] at h
      rw [h]; exact ih

theorem findCandidate_eq (s : VerificationState) (cid : Nat) {c : URLCandidate}
    (h : findCandidate s cid = some c) : c ∈ s.candidates ∧ c.id = cid := by
  refine ⟨List.mem_of_find?_eq_some h, ?_⟩
  have := List.find?_some h
  simpa using this

theorem addOne_candidates (s : VerificationState) (org : String) (tuc : String × String × ℚ)
    (now : Nat) :
    (addOne s org tuc now).candidates = s.candidates ++ [mkCandidate s org tuc now] := rfl

theorem addOne_pending (s : VerificationState) (org : String) (tuc : String × String × ℚ)
    (now : Nat) :
    (addOne s org tuc now).pending_verifications =
      alistInsert s.pending_verifications org
        (((alistLookup s.pending_verifications org).getD []) ++ [s.nextId]) := rfl

theorem wf_init : StateWF initVerificationState := by
  refine ⟨?_, ?_, ?_, ?_, ?_⟩ <;> simp [initVerificationState, alistLookup]

theorem wf_addOne (s : VerificationState) (org : String) (tuc : String × String × ℚ)
    (now : Nat) (hwf : StateWF s) : StateWF (addOne s org tuc now) := by
  obtain ⟨W1, W2, W3, W4, W5⟩ := hwf
  have hPendLt : ∀ org' ids cid, alistLookup s.pending_verifications org' = some ids →
      cid ∈ ids → cid < s.nextId := by
    intro org' ids cid hl hm
    obtain ⟨⟨c, hc, hcid⟩, _⟩ := W3 org' ids hl cid hm
    exact hcid ▸ W1 c hc
  have holdLt : ∀ cid ∈ (alistLookup s.pending_verifications org).getD [], cid < s.nextId := by
    intro cid hm
    cases hl : alistLookup s.pending_verifications org with
    | none => rw [hl] at hm; simp at hm
    | some ids => rw [hl] at hm; exact hPendLt org ids cid hl hm
  refine ⟨?_, ?_, ?_, ?_, ?_⟩
  · intro c hc
    rw [addOne_candidates] at hc
    rcases List.mem_append.mp hc with h | h
    · exact Nat.lt_succ_of_lt (W1 c h)
    · rw [List.mem_singleton.mp h]
      exact Nat.lt_succ_self _
  · rw [addOne_candidates, List.map_append, List.nodup_append]
    refine ⟨W2, List.nodup_singleton _, ?_⟩
    intro a ha hb
    simp only [List.map_cons, List.map_nil, List.mem_singleton] at hb
    have ha' : a < s.nextId := by
      simp only [List.mem_map] at ha
      obtain ⟨c, hc, hcid⟩ := ha
      exact hcid ▸ W1 c hc
    have hb' : a = s.nextId := hb
    omega
  · intro org' ids hl cid hm
    rw [addOne_pending] at hl
    by_cases horg : org' = org
    · subst horg
      rw [alistLookup_insert_self] at hl
      injection hl with hids
      subst hids
      rcases List.mem_append.mp hm with hmold | hmnew
      · cases hlo : alistLookup s.pending_verifications org' with
        | none => rw [hlo] at hmold; simp at hmold
        | some ids0 =>
          rw [hlo] at hmold
          simp only [Option.getD_some] at hmold
          obtain ⟨hex, hall⟩ := W3 org' ids0 hlo cid hmold
          constructor
          · obtain ⟨c, hc, hcid⟩ := hex
            exact ⟨c, by rw [addOne_candidates]; exact List.mem_append_left _ hc, hcid⟩
          · intro c hc hcid
            rw [addOne_candidates] at hc
            rcases List.mem_append.mp hc with h | h
            · exact hall c h hcid
            · rw [List.mem_singleton.mp h] at hcid
              have h1 : s.nextId = cid := hcid
              have h2 := hPendLt org' ids0 cid hlo hmold
              omega
      · have hcid : cid = s.nextId := by simpa using hmnew
        subst hcid
        constructor
        · exact ⟨mkCandidate s org' tuc now,
            by rw [addOne_candidates]; exact List.mem_append_right _ (List.mem_singleton.mpr rfl),
            rfl⟩
        · intro c hc hceq
          rw [addOne_candidates] at hc
          rcases List.mem_append.mp hc with h | h
          · exact absurd (hceq ▸ W1 c h) (lt_irrefl _)
          · rw [List.mem_singleton.mp h]
            exact ⟨rfl, rfl⟩
    · rw [alistLookup_insert_ne _ _ _ _ horg] at hl
      obtain ⟨hex, hall⟩ := W3 org' ids hl cid hm
      constructor
      · obtain ⟨c, hc, hcid⟩ := hex
        exact ⟨c, by rw [addOne_candidates]; exact List.mem_append_left _ hc, hcid⟩
      · intro c hc hcid
        rw [addOne_candidates] at hc
        rcases List.mem_append.mp hc with h | h
        · exact hall c h hcid
        · rw [List.mem_singleton.mp h] at hcid
          have h1 : s.nextId = cid := hcid
          have h2 := hPendLt org' ids cid hl hm
          omega
  · intro c hc hst
    rw [addOne_candidates] at hc
    rcases List.mem_append.mp hc with h | h
    · obtain ⟨ids0, hl0, hm0⟩ := W4 c h hst
      by_cases horg : c.organization = org
      · refine ⟨((alistLookup s.pending_verifications org).getD []) ++ [s.nextId], ?_, ?_⟩
        · rw [addOne_pending, horg, alistLookup_insert_self]
        · have hgd : (alistLookup s.pending_verifications org).getD [] = ids0 := by
            rw [← horg, hl0]
            rfl
          rw [hgd]
          exact List.mem_append_left _ hm0
      · refine ⟨ids0, ?_, hm0⟩
        rw [addOne_pending, alistLookup_insert_ne _ _ _ _ horg]
        exact hl0
    · rw [List.mem_singleton.mp h]
      refine ⟨((alistLookup s.pending_verifications org).getD []) ++ [s.nextId], ?_, ?_⟩
      · rw [addOne_pending]
        exact alistLookup_insert_self _ _ _
      · exact List.mem_append_right _ (List.mem_singleton.mpr rfl)
  · intro org' ids hl
    rw [addOne_pending] at hl
    by_cases horg : org' = org
    · subst horg
      rw [alistLookup_insert_self] at hl
      injection hl with hids
      subst hids
      rw [List.nodup_append]
      refine ⟨?_, List.nodup_singleton _, ?_⟩
      · cases hlo : alistLookup s.pending_verifications org' with
        | none => simp
        | some ids0 =>
          simp only [Option.getD_some]
          exact W5 _ _ hlo
      · intro a ha hb
        have ha' : a < s.nextId := holdLt a ha
        have hb' : a = s.nextId := by simpa using hb
        omega
    · rw [alistLookup_insert_ne _ _ _ _ horg] at hl
      exact W5 _ _ hl

theorem wf_add (cands : List (String × String × ℚ)) :
    ∀ (s : VerificationState) (org : String) (now : Nat), StateWF s →
      StateWF ((add_url_candidates s org cands now).2) := by
  induction cands with
  | nil => intro s org now h; exact h
  | cons tuc rest ih =>
    intro s org now h
    exact ih (addOne s org tuc now) org now (wf_addOne s org tuc now h)

theorem approveMark_status (cid : Nat) (user : String) (now : Nat) (c : URLCandidate) :
    (approveMark cid user now c).status =
      if c.id == cid then .approved else c.status := by
  unfold approveMark; split <;> simp_all

theorem rejectSiblings_status (rest : List Nat) (c : URLCandidate) :
    (rejectSiblings rest c).status =
      if rest.contains c.id then .rejected else c.status := by
  unfold rejectSiblings; split <;> simp_all

theorem rejectMark_status (cid : Nat) (reason : String) (user : Option String) (now : Nat)
    (c : URLCandidate) :
    (rejectMark cid reason user now c).status =
      if c.id == cid then .rejected else c.status := by
  unfold rejectMark; split <;> simp_all

theorem wf_approve (s : VerificationState) (cid : Nat) (user : String) (now : Nat)
    (hwf : StateWF s) : StateWF ((approve_url s cid user now).2) := by
  obtain ⟨W1, W2, W3, W4, W5⟩ := hwf
  cases hf : findCandidate s cid with
  | none =>
    unfold approve_url
    rw [hf]
    exact ⟨W1, W2, W3, W4, W5⟩
  | some cand =>
    obtain ⟨hcmem, hcid⟩ := findCandidate_eq s cid hf
    unfold approve_url
    rw [hf]
    dsimp only
    cases hp : alistLookup s.pending_verifications cand.organization with
    | none =>
      dsimp only
      -- cid is on no pending list: if it were, `cand` would witness a
      -- lookup at `cand.organization`, which is `none`.
      have hnot : ∀ org ids, alistLookup s.pending_verifications org = some ids → cid ∉ ids := by
        intro org ids hl hmem
        have := (W3 org ids hl cid hmem).2 cand hcmem hcid
        rw [this.1] at hp
        rw [hp] at hl
        cases hl
      refine ⟨?_, ?_, ?_, ?_, W5⟩
      · intro c hc
        obtain ⟨c0, hc0, hc0eq⟩ := List.mem_map.mp hc
        rw [← hc0eq, approveMark_id]
        exact W1 c0 hc0
      · have : List.map (fun c => c.id) (s.candidates.map (approveMark cid user now)) =
            List.map (fun c => c.id) s.candidates := by
          rw [List.map_map]
          exact List.map_congr_left (fun c _ => approveMark_id cid user now c)
        rw [this]
        exact W2
      · intro org ids hl cid' hm
        obtain ⟨⟨c, hc, hcideq⟩, hall⟩ := W3 org ids hl cid' hm
        constructor
        · exact ⟨approveMark cid user now c, List.mem_map_of_mem _ hc,
            by rw [approveMark_id]; exact hcideq⟩
        · intro c' hc' hc'id
          obtain ⟨c0, hc0, hc0eq⟩ := List.mem_map.mp hc'
          rw [← hc0eq] at hc'id
          rw [approveMark_id] at hc'id
          have hne : c0.id ≠ cid := by
            intro heq
            exact hnot org ids hl (heq ▸ hc'id ▸ hm)
          rw [← hc0eq, approveMark_of_ne hne]
          exact hall c0 hc0 hc'id
      · intro c' hc' hst
        obtain ⟨c0, hc0, hc0eq⟩ := List.mem_map.mp hc'
        have hne : c0.id ≠ cid := by
          intro heq
          rw [← hc0eq, approveMark_status, if_pos (by simpa using heq)] at hst
          cases hst
        rw [← hc0eq, approveMark_of_ne hne] at hst ⊢
        exact W4 c0 hc0 hst
    | some plist =>
      dsimp only
      rw [List.map_map]
      have hGid : ∀ c,
          ((rejectSiblings (removeFirst plist cid) ∘ approveMark cid user now) c).id = c.id := by
        intro c
        simp only [Function.comp_apply, rejectSiblings_id, approveMark_id]
      have hGorg : ∀ c,
          ((rejectSiblings (removeFirst plist cid) ∘ approveMark cid user now) c).organization =
            c.organization := by
        intro c
        simp only [Function.comp_apply, rejectSiblings_org, approveMark_org]
      have hGkeep : ∀ c, c.id ≠ cid → c.id ∉ removeFirst plist cid →
          (rejectSiblings (removeFirst plist cid) ∘ approveMark cid user now) c = c := by
        intro c h1 h2
        simp only [Function.comp_apply, approveMark_of_ne h1, rejectSiblings_of_not_mem h2]
      have hplist : ∀ cid' ∈ plist, ∀ c ∈ s.candidates, c.id = cid' →
          c.organization = cand.organization ∧ c.status = .unverified :=
        fun cid' hm c hc hcid' => (W3 cand.organization plist hp cid' hm).2 c hc hcid'
      refine ⟨?_, ?_, ?_, ?_, ?_⟩
      · intro c hc
        obtain ⟨c0, hc0, hc0eq⟩ := List.mem_map.mp hc
        rw [← hc0eq, hGid]
        exact W1 c0 hc0
      · have : List.map (fun c => c.id)
            (s.candidates.map (rejectSiblings (removeFirst plist cid) ∘ approveMark cid user now)) =
            List.map (fun c => c.id) s.candidates := by
          rw [List.map_map]
          exact List.map_congr_left (fun c _ => hGid c)
        rw [this]
        exact W2
      · intro org ids hl cid' hm
        by_cases horg : org = cand.organization
        · rw [horg, alistLookup_insert_self] at hl
          injection hl with hids
          rw [← hids] at hm
          cases hm
        · rw [alistLookup_insert_ne _ _ _ _ horg] at hl
          obtain ⟨⟨c, hc, hcideq⟩, hall⟩ := W3 org ids hl cid' hm
          constructor
          · exact ⟨_, List.mem_map_of_mem _ hc, by rw [hGid]; exact hcideq⟩
          · intro c' hc' hc'id
            obtain ⟨c0, hc0, hc0eq⟩ := List.mem_map.mp hc'
            rw [← hc0eq] at hc'id
            rw [hGid] at hc'id
            have hne : c0.id ≠ cid := by
              intro heq
              have := (W3 org ids hl cid' hm).2 cand hcmem (by rw [hcid, ← heq, hc'id])
              exact horg this.1.symm
            have hnm : c0.id ∉ removeFirst plist cid := by
              intro hmem
              have hmem' := mem_of_mem_removeFirst hmem
              have := hplist c0.id hmem' c0 hc0 rfl
              have horg0 := (hall c0 hc0 hc'id).1
              rw [horg0] at this
              exact horg this.1
            rw [← hc0eq, hGkeep c0 hne hnm]
            exact hall c0 hc0 hc'id
      · intro c' hc' hst
        obtain ⟨c0, hc0, hc0eq⟩ := List.mem_map.mp hc'
        by_cases heq : c0.id = cid
        · exfalso
          rw [← hc0eq] at hst
          simp only [Function.comp_apply] at hst
          rw [rejectSiblings_status] at hst
          by_cases hmem : (removeFirst plist cid).contains (approveMark cid user now c0).id
          · rw [if_pos hmem] at hst
            cases hst
          · rw [if_neg hmem, approveMark_status, if_pos (by simpa using heq)] at hst
            cases hst
        · by_cases hmem : c0.id ∈ removeFirst plist cid
          · exfalso
            rw [← hc0eq] at hst
            simp only [Function.comp_apply] at hst
            rw [rejectSiblings_status] at hst
            rw [approveMark_of_ne heq] at hst
            rw [if_pos (by simpa using hmem)] at hst
            cases hst
          · rw [← hc0eq, hGkeep c0 heq hmem] at hst ⊢
            obtain ⟨ids0, hl0, hm0⟩ := W4 c0 hc0 hst
            by_cases horg : c0.organization = cand.organization
            · exfalso
              rw [horg, hp] at hl0
              injection hl0 with hids0
              rw [← hids0] at hm0
              exact hmem (mem_removeFirst_of_ne hm0 heq)
            · refine ⟨ids0, ?_, hm0⟩
              rw [alistLookup_insert_ne _ _ _ _ horg]
              exact hl0
      · intro org ids hl
        by_cases horg : org = cand.organization
        · rw [horg, alistLookup_insert_self] at hl
          injection hl with hids
          rw [← hids]
          exact List.nodup_nil
        · rw [alistLookup_insert_ne _ _ _ _ horg] at hl
          exact W5 _ _ hl

theorem wf_reject (s : VerificationState) (cid : Nat) (reason : String)
    (user : Option String) (now : Nat) (hwf : StateWF s) :
    StateWF ((reject_url s cid reason user now).2) := by
  obtain ⟨W1, W2, W3, W4, W5⟩ := hwf
  cases hf : findCandidate s cid with
  | none =>
    unfold reject_url
    rw [hf]
    exact ⟨W1, W2, W3, W4, W5⟩
  | some cand =>
    obtain ⟨hcmem, hcid⟩ := findCandidate_eq s cid hf
    unfold reject_url
    rw [hf]
    dsimp only
    have hW1' : ∀ c' ∈ s.candidates.map (rejectMark cid reason user now), c'.id < s.nextId := by
      intro c' hc'
      obtain ⟨c0, hc0, hc0eq⟩ := List.mem_map.mp hc'
      rw [← hc0eq, rejectMark_id]
      exact W1 c0 hc0
    have hW2' :
        (List.map (fun c => c.id) (s.candidates.map (rejectMark cid reason user now))).Nodup := by
      have : List.map (fun c => c.id) (s.candidates.map (rejectMark cid reason user now)) =
          List.map (fun c => c.id) s.candidates := by
        rw [List.map_map]
        exact List.map_congr_left (fun c _ => rejectMark_id cid reason user now c)
      rw [this]
      exact W2
    have hcidOrg : ∀ org ids, alistLookup s.pending_verifications org = some ids →
        cid ∈ ids → org = cand.organization := by
      intro org ids hl hm
      exact ((W3 org ids hl cid hm).2 cand hcmem hcid).1.symm
    have hW3pair : ∀ org ids, alistLookup s.pending_verifications org = some ids →
        ∀ cid' ∈ ids, cid' ≠ cid →
        (∃ c' ∈ s.candidates.map (rejectMark cid reason user now), c'.id = cid') ∧
        (∀ c' ∈ s.candidates.map (rejectMark cid reason user now), c'.id = cid' →
          c'.organization = org ∧ c'.status = .unverified) := by
      intro org ids hl cid' hm hne
      obtain ⟨⟨c, hc, hcideq⟩, hall⟩ := W3 org ids hl cid' hm
      refine ⟨⟨rejectMark cid reason user now c, List.mem_map_of_mem _ hc,
        by rw [rejectMark_id]; exact hcideq⟩, ?_⟩
      intro c' hc' hc'id
      obtain ⟨c0, hc0, hc0eq⟩ := List.mem_map.mp hc'
      rw [← hc0eq] at hc'id ⊢
      rw [rejectMark_id] at hc'id
      rw [rejectMark_of_ne (by rw [hc'id]; exact hne)]
      exact hall c0 hc0 hc'id
    have hW4core : ∀ c' ∈ s.candidates.map (rejectMark cid reason user now),
        c'.status = .unverified →
        ∃ c0 ∈ s.candidates, c' = c0 ∧ c0.id ≠ cid ∧ c0.status = .unverified := by
      intro c' hc' hst
      obtain ⟨c0, hc0, hc0eq⟩ := List.mem_map.mp hc'
      by_cases heq : c0.id = cid
      · exfalso
        rw [← hc0eq, rejectMark_status, if_pos (by simpa using heq)] at hst
        cases hst
      · rw [← hc0eq, rejectMark_of_ne heq] at hst ⊢
        exact ⟨c0, hc0, rfl, heq, hst⟩
    cases hp : alistLookup s.pending_verifications cand.organization with
    | none =>
      refine ⟨hW1', hW2', ?_, ?_, W5⟩
      · intro org ids hl cid' hm
        have hne : cid' ≠ cid := by
          intro heq
          rw [hcidOrg org ids hl (heq ▸ hm), hp] at hl
          cases hl
        exact hW3pair org ids hl cid' hm hne
      · intro c' hc' hst
        obtain ⟨c0, hc0, hceq, hne, hst0⟩ := hW4core c' hc' hst
        obtain ⟨ids0, hl0, hm0⟩ := W4 c0 hc0 hst0
        rw [hceq]
        exact ⟨ids0, hl0, hm0⟩
    | some plist =>
      dsimp only
      by_cases hct : plist.contains cid
      · rw [if_pos hct]
        have hplNodup : plist.Nodup := W5 _ _ hp
        refine ⟨hW1', hW2', ?_, ?_, ?_⟩
        · intro org ids hl cid' hm
          by_cases horg : org = cand.organization
          · subst horg
            rw [alistLookup_insert_self] at hl
            injection hl with hids
            rw [← hids] at hm
            have hne : cid' ≠ cid := by
              intro heq
              exact not_mem_removeFirst_self hplNodup cid (heq ▸ hm)
            exact hW3pair _ plist hp cid' (mem_of_mem_removeFirst hm) hne
          · rw [alistLookup_insert_ne _ _ _ _ horg] at hl
            have hne : cid' ≠ cid := by
              intro heq
              exact horg (hcidOrg org ids hl (heq ▸ hm))
            exact hW3pair org ids hl cid' hm hne
        · intro c' hc' hst
          obtain ⟨c0, hc0, hceq, hne, hst0⟩ := hW4core c' hc' hst
          obtain ⟨ids0, hl0, hm0⟩ := W4 c0 hc0 hst0
          rw [hceq]
          by_cases horg : c0.organization = cand.organization
          · rw [horg, hp] at hl0
            injection hl0 with hids0
            refine ⟨removeFirst plist cid, ?_, ?_⟩
            · rw [horg]
              exact alistLookup_insert_self _ _ _
            · rw [← hids0] at hm0
              exact mem_removeFirst_of_ne hm0 hne
          · refine ⟨ids0, ?_, hm0⟩
            rw [alistLookup_insert_ne _ _ _ _ horg]
            exact hl0
        · intro org ids hl
          by_cases horg : org = cand.organization
          · subst horg
            rw [alistLookup_insert_self] at hl
            injection hl with hids
            rw [← hids]
            exact nodup_removeFirst hplNodup cid
          · rw [alistLookup_insert_ne _ _ _ _ horg] at hl
            exact W5 _ _ hl
      · rw [if_neg hct]
        refine ⟨hW1', hW2', ?_, ?_, W5⟩
        · intro org ids hl cid' hm
          have hne : cid' ≠ cid := by
            intro heq
            have horg := hcidOrg org ids hl (heq ▸ hm)
            rw [horg, hp] at hl
            injection hl with hids
            rw [← hids] at hm
            exact hct (by simpa using heq ▸ hm)
          exact hW3pair org ids hl cid' hm hne
        · intro c' hc' hst
          obtain ⟨c0, hc0, hceq, hne, hst0⟩ := hW4core c' hc' hst
          obtain ⟨ids0, hl0, hm0⟩ := W4 c0 hc0 hst0
          rw [hceq]
          exact ⟨ids0, hl0, hm0⟩

theorem wf_step (s : VerificationState) (op : VOp) (h : StateWF s) : StateWF (stepOp s op) := by
  cases op with
  | add org cands now => exact wf_add cands s org now h
  | approve cid user now => exact wf_approve s cid user now h
  | reject cid reason user now => exact wf_reject s cid reason user now h

theorem wf_runFrom (ops : List VOp) : ∀ s, StateWF s → StateWF (ops.foldl stepOp s) := by
  induction ops with
  | nil => intro s h; exact h
  | cons op rest ih => intro s h; exact ih (stepOp s op) (wf_step s op h)

theorem wf_runOps (ops : List VOp) : StateWF (runOps ops) :=
  wf_runFrom ops initVerificationState wf_init

theorem findCandidate_addOne (s : VerificationState) (org : String) (tuc : String × String × ℚ)
    (now : Nat) (cid : Nat) (c : URLCandidate) (h : findCandidate s cid = some c) :
    findCandidate (addOne s org tuc now) cid = some c := by
  unfold findCandidate at h ⊢
  rw [addOne_candidates, List.find?_append, h]
  rfl

theorem findCandidate_add (cands : List (String × String × ℚ)) :
    ∀ (s : VerificationState) (org : String) (now : Nat) (cid : Nat) (c : URLCandidate),
      findCandidate s cid = some c →
      findCandidate ((add_url_candidates s org cands now).2) cid = some c := by
  induction cands with
  | nil => intro s org now cid c h; exact h
  | cons tuc rest ih =>
    intro s org now cid c h
    exact ih (addOne s org tuc now) org now cid c (findCandidate_addOne s org tuc now cid c h)

theorem findCandidate_approve_other (s : VerificationState) (cid' : Nat) (user : String)
    (now : Nat) (cid : Nat) (c : URLCandidate) (hwf : StateWF s)
    (hf : findCandidate s cid = some c) (hne : cid ≠ cid')
    (hnu : c.status ≠ .unverified) :
    findCandidate ((approve_url s cid' user now).2) cid = some c := by
  obtain ⟨W1, W2, W3, W4, W5⟩ := hwf
  have hcidc : c.id = cid := (findCandidate_eq s cid hf).2
  have hcne : c.id ≠ cid' := by rw [hcidc]; exact hne
  cases hf' : findCandidate s cid' with
  | none =>
    unfold approve_url
    rw [hf']
    exact hf
  | some cand =>
    unfold approve_url
    rw [hf']
    dsimp only
    cases hp : alistLookup s.pending_verifications cand.organization with
    | none =>
      show ((s.candidates.map (approveMark cid' user now)).find? (fun c => c.id == cid)) = some c
      rw [find?_map_id_pres _ (approveMark_id cid' user now) cid]
      unfold findCandidate at hf
      rw [hf]
      show some (approveMark cid' user now c) = some c
      rw [approveMark_of_ne hcne]
    | some plist =>
      show (((s.candidates.map (approveMark cid' user now)).map
          (rejectSiblings (removeFirst plist cid'))).find? (fun c => c.id == cid)) = some c
      rw [find?_map_id_pres _ (rejectSiblings_id (removeFirst plist cid')) cid,
        find?_map_id_pres _ (approveMark_id cid' user now) cid]
      unfold findCandidate at hf
      have hnm : c.id ∉ removeFirst plist cid' := by
        intro hmem
        have hmem' := mem_of_mem_removeFirst hmem
        have := (W3 cand.organization plist hp c.id hmem').2 c
          (List.mem_of_find?_eq_some hf) rfl
        exact hnu this.2
      rw [hf]
      show some (rejectSiblings (removeFirst plist cid') (approveMark cid' user now c)) = some c
      rw [approveMark_of_ne hcne, rejectSiblings_of_not_mem hnm]

theorem findCandidate_reject_other (s : VerificationState) (cid' : Nat) (reason : String)
    (user : Option String) (now : Nat) (cid : Nat) (c : URLCandidate)
    (hf : findCandidate s cid = some c) (hne : cid ≠ cid') :
    findCandidate ((reject_url s cid' reason user now).2) cid = some c := by
  have hcidc : c.id = cid := (findCandidate_eq s cid hf).2
  have hcne : c.id ≠ cid' := by rw [hcidc]; exact hne
  cases hf' : findCandidate s cid' with
  | none =>
    unfold reject_url
    rw [hf']
    exact hf
  | some cand =>
    unfold reject_url
    rw [hf']
    dsimp only
    show ((s.candidates.map (rejectMark cid' reason user now)).find? (fun c => c.id == cid)) =
      some c
    rw [find?_map_id_pres _ (rejectMark_id cid' reason user now) cid]
    unfold findCandidate at hf
    rw [hf]
    show some (rejectMark cid' reason user now c) = some c
    rw [rejectMark_of_ne hcne]

/-- Claim C3 (amended): in every state reachable from a fresh manager, a
candidate that holds a terminal status (APPROVED or REJECTED) keeps that
status under any operation that does not target its id directly:
`add_url_candidates` never changes it, and `approve_url` / `reject_url`
on a *different* candidate never change it (in particular the sibling
rejection of an approval never hits a terminal candidate).  A direct
`approve_url`/`reject_url` on the candidate itself, however, overwrites
the status unconditionally — terminal states are not final against
direct calls. -/
theorem c3_terminal_persists_without_direct_call (ops : List VOp) (op : VOp) (cid : Nat)
    (stv : VerificationStatus) (hst : statusOf (runOps ops) cid = some stv)
    (hterm : isTerminal stv) (hnt : ¬ targetsOp op cid) :
    statusOf (stepOp (runOps ops) op) cid = some stv := by
  have hwf := wf_runOps ops
  unfold statusOf at hst
  cases hf : findCandidate (runOps ops) cid with
  | none => rw [hf] at hst; cases hst
  | some c =>
    rw [hf] at hst
    have hcs : c.status = stv := by simpa using hst
    have hnu : c.status ≠ .unverified := by
      rw [hcs]
      rcases hterm with h | h <;> rw [h] <;> intro hh <;> cases hh
    cases op with
    | add org cands now =>
      unfold statusOf stepOp
      rw [findCandidate_add cands (runOps ops) org now cid c hf]
      show some c.status = some stv
      rw [hcs]
    | approve cid' user now =>
      have hne : cid ≠ cid' := fun h => hnt h.symm
      unfold statusOf stepOp
      rw [findCandidate_approve_other (runOps ops) cid' user now cid c hwf hf hne hnu]
      show some c.status = some stv
      rw [hcs]
    | reject cid' reason user now =>
      have hne : cid ≠ cid' := fun h => hnt h.symm
      unfold statusOf stepOp
      rw [findCandidate_reject_other (runOps ops) cid' reason user now cid c hf hne]
      show some c.status = some stv
      rw [hcs]

theorem countApproved_eq_countP (s : VerificationState) (org : String) :
    countApproved s org =
      s.candidates.countP
        (fun c => c.organization == org && (c.status == VerificationStatus.approved)) :=
  (List.countP_eq_length_filter _ _).symm

theorem inv_init : ApprovedInv initVerificationState := by
  intro org
  constructor
  · simp [countApproved, initVerificationState]
  · intro h
    simp [countApproved, initVerificationState] at h

theorem countApproved_addOne (s : VerificationState) (org : String) (tuc : String × String × ℚ)
    (now : Nat) (org'' : String) :
    countApproved (addOne s org tuc now) org'' = countApproved s org'' := by
  rw [countApproved_eq_countP, countApproved_eq_countP]
  show List.countP _ (s.candidates ++ [mkCandidate s org tuc now]) = _
  rw [List.countP_append]
  have : List.countP
      (fun c => c.organization == org'' && (c.status == VerificationStatus.approved))
      [mkCandidate s org tuc now] = 0 := by
    simp [List.countP_cons, mkCandidate]
  rw [this]
  exact Nat.add_zero _

theorem addOne_no_approved_pres (s : VerificationState) (org : String)
    (tuc : String × String × ℚ) (now : Nat)
    (hguard : ∀ c ∈ s.candidates, c.organization = org → c.status ≠ .approved) :
    ∀ c ∈ (addOne s org tuc now).candidates, c.organization = org → c.status ≠ .approved := by
  intro c hc horg
  rw [addOne_candidates] at hc
  rcases List.mem_append.mp hc with h | h
  · exact hguard c h horg
  · rw [List.mem_singleton.mp h]
    intro hst
    cases hst

theorem inv_addOne (s : VerificationState) (org : String) (tuc : String × String × ℚ)
    (now : Nat) (hinv : ApprovedInv s)
    (hguard : ∀ c ∈ s.candidates, c.organization = org → c.status ≠ .approved) :
    ApprovedInv (addOne s org tuc now) := by
  intro org''
  obtain ⟨hA, hB⟩ := hinv org''
  rw [countApproved_addOne]
  refine ⟨hA, ?_⟩
  intro hge c hc horg hst
  rw [addOne_candidates] at hc
  rcases List.mem_append.mp hc with h | h
  · exact hB hge c h horg hst
  · -- the fresh candidate: its organization is `org`, so `org'' = org`,
    -- and the guard forces `countApproved s org = 0`.
    have hcm : c = mkCandidate s org tuc now := List.mem_singleton.mp h
    have horg' : org'' = org := by rw [← horg, hcm]; rfl
    have hzero : countApproved s org = 0 := by
      rw [countApproved_eq_countP]
      rw [List.countP_eq_zero]
      intro a ha hpa
      simp only [Bool.and_eq_true, beq_iff_eq] at hpa
      exact hguard a ha hpa.1 hpa.2
    rw [horg', hzero] at hge
    omega

theorem inv_add (cands : List (String × String × ℚ)) :
    ∀ (s : VerificationState) (org : String) (now : Nat), ApprovedInv s →
      (∀ c ∈ s.candidates, c.organization = org → c.status ≠ .approved) →
      ApprovedInv ((add_url_candidates s org cands now).2) := by
  induction cands with
  | nil => intro s org now h _; exact h
  | cons tuc rest ih =>
    intro s org now h hguard
    exact ih (addOne s org tuc now) org now (inv_addOne s org tuc now h hguard)
      (addOne_no_approved_pres s org tuc now hguard)

theorem inv_reject (s : VerificationState) (cid : Nat) (reason : String)
    (user : Option String) (now : Nat) (hinv : ApprovedInv s) :
    ApprovedInv ((reject_url s cid reason user now).2) := by
  cases hf : findCandidate s cid with
  | none =>
    unfold reject_url
    rw [hf]
    exact hinv
  | some cand =>
    unfold reject_url
    rw [hf]
    dsimp only
    intro org''
    obtain ⟨hA, hB⟩ := hinv org''
    have hle : countApproved
        ⟨s.candidates.map (rejectMark cid reason user now), s.verified_urls,
          (match alistLookup s.pending_verifications cand.organization with
            | none => s.pending_verifications
            | some plist =>
              if plist.contains cid then
                alistInsert s.pending_verifications cand.organization (removeFirst plist cid)
              else s.pending_verifications),
          s.nextId⟩ org'' ≤ countApproved s org'' := by
      rw [countApproved_eq_countP, countApproved_eq_countP]
      show List.countP _ (s.candidates.map (rejectMark cid reason user now)) ≤ _
      rw [List.countP_map]
      refine List.countP_mono_left ?_
      intro c hc hpc
      simp only [Function.comp_apply] at hpc
      by_cases heq : c.id = cid
      · exfalso
        simp only [Bool.and_eq_true, beq_iff_eq] at hpc
        rw [rejectMark_status, if_pos (by simpa using heq)] at hpc
        cases hpc.2
      · rwa [rejectMark_of_ne heq] at hpc
    refine ⟨le_trans hle hA, ?_⟩
    intro hge c' hc' horg hst
    obtain ⟨c0, hc0, hc0eq⟩ := List.mem_map.mp hc'
    by_cases heq : c0.id = cid
    · rw [← hc0eq, rejectMark_status, if_pos (by simpa using heq)] at hst
      cases hst
    · rw [← hc0eq, rejectMark_of_ne heq] at hst horg
      exact hB (le_trans hge hle) c0 hc0 horg hst

theorem inv_approve (s : VerificationState) (cid : Nat) (user : String) (now : Nat)
    (hwf : StateWF s) (hinv : ApprovedInv s)
    (hg : statusOf s cid = some .unverified) :
    ApprovedInv ((approve_url s cid user now).2) := by
  obtain ⟨W1, W2, W3, W4, W5⟩ := hwf
  unfold statusOf at hg
  cases hf : findCandidate s cid with
  | none => rw [hf] at hg; cases hg
  | some c0 =>
    rw [hf] at hg
    have hc0st : c0.status = .unverified := by simpa using hg
    obtain ⟨hc0mem, hc0id⟩ := findCandidate_eq s cid hf
    have hzero : countApproved s c0.organization = 0 := by
      by_contra hnz
      have hge : 1 ≤ countApproved s c0.organization := Nat.one_le_iff_ne_zero.mpr hnz
      exact (hinv c0.organization).2 hge c0 hc0mem rfl hc0st
    obtain ⟨plist0, hp0, hmem0⟩ := W4 c0 hc0mem hc0st
    have huniq : ∀ a ∈ s.candidates, a.id = cid → a = c0 := by
      intro a ha haid
      exact List.inj_on_of_nodup_map W2 ha hc0mem (by rw [haid, hc0id])
    have hcnt_id : s.candidates.countP (fun c => c.id == cid) ≤ 1 := by
      have h1 : s.candidates.countP (fun c => c.id == cid) =
          List.count cid (s.candidates.map (fun c => c.id)) := by
        rw [List.count_eq_countP, List.countP_map]
        rfl
      rw [h1]
      exact List.nodup_iff_count_le_one.mp W2 cid
    unfold approve_url
    rw [hf]
    dsimp only
    cases hp : alistLookup s.pending_verifications c0.organization with
    | none =>
      rw [hp] at hp0
      cases hp0
    | some plist =>
      have hpl : plist = plist0 := by
        rw [hp] at hp0
        injection hp0 with h
      dsimp only
      -- members of the pending list are UNVERIFIED candidates of `c0.organization`
      have hplOrg : ∀ a ∈ s.candidates, a.id ∈ plist →
          a.organization = c0.organization ∧ a.status = .unverified := by
        intro a ha hmem
        exact (W3 c0.organization plist hp a.id hmem).2 a ha rfl
      intro org''
      by_cases horg : org'' = c0.organization
      · subst horg
        constructor
        · rw [countApproved_eq_countP]
          show List.countP _
            (List.map (rejectSiblings (removeFirst plist cid))
              (List.map (approveMark cid user now) s.candidates)) ≤ 1
          rw [List.countP_map, List.countP_map]
          refine le_trans (List.countP_mono_left ?_) hcnt_id
          intro c hc hpc
          simp only [Function.comp_apply] at hpc
          by_cases hid : c.id = cid
          · simpa using hid
          · exfalso
            by_cases hmemr : c.id ∈ removeFirst plist cid
            · have hstat : (rejectSiblings (removeFirst plist cid)
                  (approveMark cid user now c)).status = .rejected := by
                rw [rejectSiblings_status, if_pos]
                rw [approveMark_id]
                simpa using hmemr
              simp only [Bool.and_eq_true, beq_iff_eq] at hpc
              rw [hstat] at hpc
              cases hpc.2
            · have hGc : rejectSiblings (removeFirst plist cid)
                  (approveMark cid user now c) = c := by
                rw [approveMark_of_ne hid, rejectSiblings_of_not_mem hmemr]
              rw [hGc] at hpc
              rw [countApproved_eq_countP] at hzero
              exact List.countP_eq_zero.mp hzero c hc hpc
        · intro _ c' hc' horg' hst
          obtain ⟨d, hd, hdeq⟩ := List.mem_map.mp hc'
          obtain ⟨c1, hc1, hc1eq⟩ := List.mem_map.mp hd
          rw [← hdeq, ← hc1eq] at hst
          by_cases hid : c1.id = cid
          · rw [rejectSiblings_status] at hst
            by_cases hmemr :
                (removeFirst plist cid).contains (approveMark cid user now c1).id
            · rw [if_pos hmemr] at hst
              cases hst
            · rw [if_neg hmemr, approveMark_status, if_pos (by simpa using hid)] at hst
              cases hst
          · by_cases hmemr : c1.id ∈ removeFirst plist cid
            · have : (rejectSiblings (removeFirst plist cid)
                  (approveMark cid user now c1)).status = .rejected := by
                rw [rejectSiblings_status, if_pos]
                rw [approveMark_id]
                simpa using hmemr
              rw [this] at hst
              cases hst
            · have hGc : rejectSiblings (removeFirst plist cid)
                  (approveMark cid user now c1) = c1 := by
                rw [approveMark_of_ne hid, rejectSiblings_of_not_mem hmemr]
              rw [hGc] at hst
              obtain ⟨ids1, hl1, hm1⟩ := W4 c1 hc1 hst
              have horgc1 : c1.organization = c0.organization := by
                rw [← hdeq, ← hc1eq, hGc] at horg'
                exact horg'
              rw [horgc1, hp] at hl1
              injection hl1 with hids1
              rw [← hids1] at hm1
              exact hmemr (mem_removeFirst_of_ne hm1 hid)
      · have hcount_eq : List.countP
            (fun c => c.organization == org'' && (c.status == VerificationStatus.approved))
            (List.map (rejectSiblings (removeFirst plist cid))
              (List.map (approveMark cid user now) s.candidates)) =
            List.countP
              (fun c => c.organization == org'' && (c.status == VerificationStatus.approved))
              s.candidates := by
          rw [List.countP_map, List.countP_map]
          refine List.countP_congr ?_
          intro a ha
          simp only [Function.comp_apply]
          by_cases hid : a.id = cid
          · have ha0 : a = c0 := huniq a ha hid
            have horga : a.organization = c0.organization := by rw [ha0]
            have hGorg : (rejectSiblings (removeFirst plist cid)
                (approveMark cid user now a)).organization = a.organization := by
              rw [rejectSiblings_org, approveMark_org]
            constructor
            · intro hl
              simp only [Bool.and_eq_true, beq_iff_eq] at hl
              exact absurd (by rw [← hGorg, hl.1] : a.organization = org'')
                (by rw [horga]; exact fun hh => horg hh.symm)
            · intro hr
              simp only [Bool.and_eq_true, beq_iff_eq] at hr
              exact absurd hr.1 (by rw [horga]; exact fun hh => horg hh.symm)
          · by_cases hmemr : a.id ∈ removeFirst plist cid
            · have horga : a.organization = c0.organization :=
                (hplOrg a ha (mem_of_mem_removeFirst hmemr)).1
              have hGorg : (rejectSiblings (removeFirst plist cid)
                  (approveMark cid user now a)).organization = a.organization := by
                rw [rejectSiblings_org, approveMark_org]
              constructor
              · intro hl
                simp only [Bool.and_eq_true, beq_iff_eq] at hl
                exact absurd (by rw [← hGorg, hl.1] : a.organization = org'')
                  (by rw [horga]; exact fun hh => horg hh.symm)
              · intro hr
                simp only [Bool.and_eq_true, beq_iff_eq] at hr
                exact absurd hr.1 (by rw [horga]; exact fun hh => horg hh.symm)
            · rw [approveMark_of_ne hid, rejectSiblings_of_not_mem hmemr]
        have hcount_eq' : countApproved
            ⟨List.map (rejectSiblings (removeFirst plist cid))
                (List.map (approveMark cid user now) s.candidates),
              alistInsert s.verified_urls c0.organization c0.url,
              alistInsert s.pending_verifications c0.organization [],
              s.nextId⟩ org'' = countApproved s org'' := by
          rw [countApproved_eq_countP, countApproved_eq_countP]
          exact hcount_eq
        constructor
        · rw [hcount_eq']
          exact (hinv org'').1
        · intro hge c' hc' horg' hst
          rw [hcount_eq'] at hge
          obtain ⟨d, hd, hdeq⟩ := List.mem_map.mp hc'
          obtain ⟨c1, hc1, hc1eq⟩ := List.mem_map.mp hd
          by_cases hid : c1.id = cid
          · have ha0 : c1 = c0 := huniq c1 hc1 hid
            have : c'.organization = c0.organization := by
              rw [← hdeq, ← hc1eq, rejectSiblings_org, approveMark_org, ha0]
            rw [horg'] at this
            exact horg this
          · by_cases hmemr : c1.id ∈ removeFirst plist cid
            · have : c'.status = .rejected := by
                rw [← hdeq, ← hc1eq, rejectSiblings_status, if_pos]
                rw [approveMark_id]
                simpa using hmemr
              rw [this] at hst
              cases hst
            · have hGc : c' = c1 := by
                rw [← hdeq, ← hc1eq, approveMark_of_ne hid,
                  rejectSiblings_of_not_mem hmemr]
              rw [hGc] at horg' hst
              exact (hinv org'').2 hge c1 hc1 horg' hst

theorem inv_step (s : VerificationState) (op : VOp) (hwf : StateWF s)
    (hinv : ApprovedInv s) (hg : guardOK s op) : ApprovedInv (stepOp s op) := by
  cases op with
  | add org cands now => exact inv_add cands s org now hinv hg
  | approve cid user now => exact inv_approve s cid user now hwf hinv hg
  | reject cid reason user now => exact inv_reject s cid reason user now hinv

theorem inv_run (ops : List VOp) : ∀ s, StateWF s → ApprovedInv s → GoodFrom s ops →
    ApprovedInv (ops.foldl stepOp s) := by
  induction ops with
  | nil => intro s _ h _; exact h
  | cons op rest ih =>
    intro s hwf hinv hgood
    exact ih (stepOp s op) (wf_step s op hwf) (inv_step s op hwf hinv hgood.1) hgood.2

/-- Claim C2 (amended): for every call sequence from a fresh manager in
which `approve_url` is only invoked on currently-UNVERIFIED candidates
and `add_url_candidates` is only invoked for organizations without an
APPROVED candidate (`reject_url` unrestricted), every organization holds
at most one APPROVED candidate in the resulting state.  Without these
usage guards the invariant fails: re-approving a REJECTED sibling, or
adding and approving a fresh candidate for an already-approved
organization, yields two APPROVED candidates. -/
theorem c2_at_most_one_approved (ops : List VOp)
    (hgood : GoodFrom initVerificationState ops) (org : String) :
    countApproved (runOps ops) org ≤ 1 :=
  ((inv_run ops initVerificationState wf_init inv_init hgood) org).1

/-- Witness for the amended C2: a guarded trace — add two candidates,
approve the first while it is UNVERIFIED — ends with at most one
APPROVED candidate for the organization. -/
theorem c2_at_most_one_approved_witness :
    countApproved
        (runOps
          [.add "acme" [("A", "https://a.org", 1), ("B", "https://b.org", 1)] 0,
            .approve 0 "alice" 1]) "acme" ≤ 1 :=
  c2_at_most_one_approved
    [.add "acme" [("A", "https://a.org", 1), ("B", "https://b.org", 1)] 0,
      .approve 0 "alice" 1]
    ⟨by simp only [guardOK]; decide, by simp only [GoodFrom, guardOK]; decide, trivial⟩ "acme"


/-- Witness for the amended C3: after approving candidate 0, a reject
call on a different id leaves candidate 0 APPROVED. -/
theorem c3_terminal_persists_witness :
    statusOf
        (stepOp
          (runOps [.add "acme" [("Acme", "https://acme.org", 1)] 0, .approve 0 "alice" 1])
          (.reject 1 "bad" none 2)) 0 = some .approved :=
  c3_terminal_persists_without_direct_call
    [.add "acme" [("Acme", "https://acme.org", 1)] 0, .approve 0 "alice" 1]
    (.reject 1 "bad" none 2) 0 .approved (by decide) (by left; rfl) (by intro h; simp [targetsOp] at h)

end LCE
